import Mathlib

/-!
Verification development for the Mais Formandos extraction pipeline
(`extract_helpers.py`, `extract_microdados.py`, `extract_config.py`).

The Python code is shallowly embedded: a CSV file is a header plus raw
text rows (`Option String` cells, `none` = empty/NA field), a pandas
DataFrame is a column-name list plus rows of typed cells, and the SQLite
database is an association list from table names to tables.  Fallible
pandas operations return `Except String`.
-/

/-- Char-level `List.isPrefixOf`, written to evaluate inside the kernel. -/
def isPrefixOfChars : List Char → List Char → Bool
  | [], _ => true
  | _ :: _, [] => false
  | a :: as, b :: bs => a = b && isPrefixOfChars as bs

/-- Python `str.startswith`, written to evaluate inside the kernel. -/
def strStartsWith (s p : String) : Bool := isPrefixOfChars p.data s.data

/-- Lower-case one ASCII character. -/
def charLower (c : Char) : Char :=
  if 65 ≤ c.toNat ∧ c.toNat ≤ 90 then Char.ofNat (c.toNat + 32) else c

/-- Python `str.lower`, written to evaluate inside the kernel. -/
def strLower (s : String) : String := ⟨s.data.map charLower⟩

/-- The numeric value of an ASCII digit. -/
def digitVal (c : Char) : Option Nat :=
  if 48 ≤ c.toNat ∧ c.toNat ≤ 57 then some (c.toNat - 48) else none

/-- Parse a non-empty all-digit character list. -/
def parseDigits : List Char → Option Nat
  | [] => none
  | [c] => digitVal c
  | c :: cs =>
    match digitVal c, parseDigits cs with
    | some d, some n => some (d * 10 ^ cs.length + n)
    | _, _ => none

/-- Python `int(...)` on a text field: an optional sign and digits. -/
def strToInt (s : String) : Option Int :=
  match s.data with
  | '-' :: ds => (parseDigits ds).map (fun n => -(n : Int))
  | ds => (parseDigits ds).map (fun n => (n : Int))

/-- Replace every non-overlapping occurrence of `pat`, left to right
(Python `str.replace`); the fuel is the input length, which suffices. -/
def replaceChars (pat rep : List Char) : Nat → List Char → List Char
  | _, [] => []
  | 0, l => l
  | fuel + 1, c :: cs =>
    if pat ≠ [] ∧ isPrefixOfChars pat (c :: cs) = true then
      rep ++ replaceChars pat rep fuel ((c :: cs).drop pat.length)
    else c :: replaceChars pat rep fuel cs

/-- Python `str.replace`, written to evaluate inside the kernel. -/
def strReplace (s pat rep : String) : String :=
  ⟨replaceChars pat.data rep.data s.data.length s.data⟩

/-- A typed cell of a pandas DataFrame: NaN, an integer, or a string. -/
inductive Cell where
  | missing
  | intCell (n : Int)
  | strCell (s : String)
deriving DecidableEq, Repr

abbrev Row := List Cell

/-- A pandas DataFrame: column names plus rows of cells. -/
structure DataFrame where
  cols : List String
  rows : List Row
deriving DecidableEq, Repr

/-- A raw CSV file: header line plus raw text rows (`none` = empty field). -/
structure CSVFile where
  header : List String
  rows : List (List (Option String))
deriving DecidableEq, Repr

/-- A destination SQLite table: columns fixed at creation, appended rows. -/
structure Table where
  cols : List String
  rows : List Row
deriving DecidableEq, Repr

/-- The SQLite database reachable through the connection: name-keyed tables. -/
abbrev Store := List (String × Table)

/-- Look a table up by name (SQLite `sqlite_master` check / `SELECT`). -/
def Store.getTable (st : Store) (name : String) : Option Table :=
  (st.find? (fun p => decide (p.1 = name))).map (fun p => p.2)

/-- `DataFrame.to_sql(..., if_exists="append")`: append rows, creating the
table with the written columns when it does not exist yet. -/
def Store.appendTable : Store → String → List String → List Row → Store
  | [], name, cols, rows => [(name, ⟨cols, rows⟩)]
  | (n, t) :: rest, name, cols, rows =>
    if n = name then (n, ⟨t.cols, t.rows ++ rows⟩) :: rest
    else (n, t) :: Store.appendTable rest name cols rows

/-- `mapM` over `Except` written as plain recursion, to ease proofs. -/
def mapE (f : α → Except String β) : List α → Except String (List β)
  | [] => .ok []
  | a :: l =>
    match f a with
    | .error e => .error e
    | .ok b =>
      match mapE f l with
      | .error e => .error e
      | .ok l' => .ok (b :: l')

/-- `mapM` over `Option` written as plain recursion, to ease proofs. -/
def mapO (f : α → Option β) : List α → Option (List β)
  | [] => some []
  | a :: l =>
    match f a with
    | none => none
    | some b =>
      match mapO f l with
      | none => none
      | some l' => some (b :: l')

/-- Accumulator loop of `dedupKeepFirst`: `seen` holds the kept rows. -/
def dedupAcc [DecidableEq α] : List α → List α → List α
  | _, [] => []
  | seen, a :: l => if a ∈ seen then dedupAcc seen l else a :: dedupAcc (a :: seen) l

/-- `drop_duplicates()` of pandas: keep the first occurrence of each row,
as an accumulator recursion over the rows already seen. -/
def dedupKeepFirst [DecidableEq α] (l : List α) : List α := dedupAcc [] l

/-- The column of `r` named `c`, looked up through the column-name list
(pandas `row[c]`); `missing` when the row is too short. -/
def colVal (cols : List String) (c : String) (r : Row) : Cell :=
  (r.get? (cols.indexOf c)).getD Cell.missing

/-- Reading a text field as a Python `int` / numpy integer. -/
def coerceIntCell : Cell → Option Int
  | .intCell n => some n
  | .strCell s => strToInt s
  | .missing => none

/-- numpy `int32` wrap-around. -/
def toInt32 (n : Int) : Int := (n + 2 ^ 31) % 2 ^ 32 - 2 ^ 31

/-- numpy `int8` wrap-around. -/
def toInt8 (n : Int) : Int := (n + 2 ^ 7) % 2 ^ 8 - 2 ^ 7

/-- `chunk[cols]` / `df[[...]]` column projection; `KeyError` when a
requested column is absent. -/
def DataFrame.select (df : DataFrame) (cs : List String) : Except String DataFrame :=
  if ∀ c ∈ cs, c ∈ df.cols then
    .ok ⟨cs, df.rows.map (fun r => cs.map (fun c => colVal df.cols c r))⟩
  else .error "KeyError"

/-- `chunk.dropna(how="any", axis=0)`: drop every row holding a NaN. -/
def dropnaAny (df : DataFrame) : DataFrame :=
  ⟨df.cols, df.rows.filter (fun r => decide (Cell.missing ∉ r))⟩

/-- `pd.read_csv(..., chunksize=n)`: consecutive slices of at most `n`
rows, in file order (fuel recursion so the kernel can evaluate it). -/
def chunksOfAux (n : Nat) : Nat → List α → List (List α)
  | _, [] => []
  | 0, _ :: _ => []
  | fuel + 1, x :: xs =>
    if n = 0 then []
    else (x :: xs).take n :: chunksOfAux n fuel ((x :: xs).drop n)

/-- `pd.read_csv(..., chunksize=n)` slicing; the fuel `l.length` always
suffices, so `chunksOf` yields the consecutive `n`-slices of `l`. -/
def chunksOf (n : Nat) (l : List α) : List (List α) := chunksOfAux n l.length l

/-- Columns of the header auto-discovered by name: `QT_ING*` / `QT_CONC*`
(`extract_dataframe_from_csv`, lines 121-126). -/
def qtColumns (allCols : List String) : List String :=
  allCols.filter (fun c => strStartsWith c "QT_ING" || strStartsWith c "QT_CONC")

/-- `usecols = list(set(usecols + qt_columns))` (line 129). -/
def combineUsecols (usecols allCols : List String) : List String :=
  dedupKeepFirst (usecols ++ qtColumns allCols)

/-- Parsing one raw field of column `col` under the dtype plan of
`extract_dataframe_from_csv` (lines 130-136): `NO_`/`SG_` read as pandas
`string` (NA allowed), `IN_` as `int8`, `QT_` as `int32` (NA or a
non-numeric field is a read error for strict integer dtypes), everything
else with default inference.  `dtyped` is false when `usecols` was not
given, in which case the dtype dict stays empty. -/
def readCell (dtyped : Bool) (col : String) (v : Option String) : Except String Cell :=
  if dtyped && (strStartsWith col "NO_" || strStartsWith col "SG_") then
    .ok (match v with | none => Cell.missing | some s => Cell.strCell s)
  else if dtyped && strStartsWith col "IN_" then
    match v with
    | none => .error "int8 column has NA values"
    | some s =>
      match strToInt s with
      | some n => .ok (Cell.intCell (toInt8 n))
      | none => .error "could not parse int8"
  else if dtyped && strStartsWith col "QT_" then
    match v with
    | none => .error "int32 column has NA values"
    | some s =>
      match strToInt s with
      | some n => .ok (Cell.intCell (toInt32 n))
      | none => .error "could not parse int32"
  else
    .ok (match v with
      | none => Cell.missing
      | some s =>
        match strToInt s with
        | some n => Cell.intCell n
        | none => Cell.strCell s)

/-- Parse one raw chunk against the selected columns (pandas materializes
only `usecols`, in header order). -/
def parseChunk (header : List String) (selCols : List String) (dtyped : Bool)
    (raws : List (List (Option String))) : Except String DataFrame :=
  match mapE (fun raw =>
      mapE (fun c => readCell dtyped c ((raw.get? (header.indexOf c)).getD none)) selCols) raws with
  | .error e => .error e
  | .ok rows => .ok ⟨selCols, rows⟩

/-- Pull chunks one by one from the lazy `pd.read_csv` iterator: every
chunk parsed before the first parse failure is produced (and immediately
`dropna`-ed, line 147); the failure, if any, is reported after them. -/
def parseChunks (header : List String) (selCols : List String) (dtyped : Bool) :
    List (List (List (Option String))) → List DataFrame × Option String
  | [] => ([], none)
  | c :: cs =>
    match parseChunk header selCols dtyped c with
    | .error e => ([], some e)
    | .ok df =>
      let (rest, err) := parseChunks header selCols dtyped cs
      (dropnaAny df :: rest, err)

/-- `extract_dataframe_from_csv` (lines 103-148): discover `QT_ING*` /
`QT_CONC*` header columns, add them to `usecols`, derive the dtype plan,
and lazily yield `dropna`-ed chunks of at most `chunksize` rows in file
order.  Result: the chunks successfully produced, plus the error that
interrupted the iteration, if any (pandas raises when `usecols` requests
a column the file does not have). -/
def extract_dataframe_from_csv (file : CSVFile) (chunksize : Nat)
    (usecols : Option (List String)) : List DataFrame × Option String :=
  match usecols with
  | some u =>
    let u' := combineUsecols u file.header
    if ∀ c ∈ u', c ∈ file.header then
      parseChunks file.header (file.header.filter (fun c => decide (c ∈ u'))) true
        (chunksOf chunksize file.rows)
    else ([], some "Usecols do not match columns")
  | none =>
    parseChunks file.header file.header false (chunksOf chunksize file.rows)

/-- `insert_unique_values` (lines 151-153): project the declared columns,
`drop_duplicates`, and append to the normalized table. -/
def insert_unique_values (df : DataFrame) (tableName : String)
    (columns : List String) (st : Store) : Except String Store :=
  match df.select columns with
  | .error e => .error e
  | .ok sub => .ok (st.appendTable tableName columns (dedupKeepFirst sub.rows))

/-- The four key columns coerced with `astype("int32")` after a chunk is
produced (`process_csv_files`, lines 173-181). -/
def keyCols : List String := ["CO_UF", "CO_REGIAO", "CO_MUNICIPIO", "TP_GRAU_ACADEMICO"]

/-- One cell under `astype("int32")`: a non-coercible value raises. -/
def coerceCellInt32 (c : Cell) : Except String Cell :=
  match coerceIntCell c with
  | some n => .ok (Cell.intCell (toInt32 n))
  | none => .error "ValueError: cannot convert to int32"

/-- `chunk[col] = chunk[col].astype("int32")`, guarded by
`if col in chunk.columns`. -/
def coerceColumn (df : DataFrame) (col : String) : Except String DataFrame :=
  if col ∈ df.cols then
    match mapE (fun r =>
        match coerceCellInt32 ((r.get? (df.cols.indexOf col)).getD Cell.missing) with
        | .error e => .error e
        | .ok c => .ok (r.set (df.cols.indexOf col) c)) df.rows with
    | .error e => .error e
    | .ok rows => .ok ⟨df.cols, rows⟩
  else .ok df

/-- Coerce a list of columns in sequence. -/
def coerceCols : List String → DataFrame → Except String DataFrame
  | [], df => .ok df
  | c :: cs, df =>
    match coerceColumn df c with
    | .error e => .error e
    | .ok df' => coerceCols cs df'

/-- The `for col in [...]` loop of `process_csv_files` (lines 173-181). -/
def coerceKeyCols (df : DataFrame) : Except String DataFrame :=
  coerceCols keyCols df

/-- The nine normalized dimension tables and their declared columns
(`process_csv_files`, lines 183-247; also `TABLE_MAPPINGS` of
`extract_config.py`). -/
def dimSpecs : List (String × List String) :=
  [("regions", ["CO_REGIAO", "NO_REGIAO"]),
   ("states", ["CO_UF", "NO_UF", "SG_UF"]),
   ("municipalities", ["CO_MUNICIPIO", "NO_MUNICIPIO", "CO_UF"]),
   ("institutions",
    ["CO_IES", "TP_ORGANIZACAO_ACADEMICA", "TP_REDE", "TP_CATEGORIA_ADMINISTRATIVA"]),
   ("courses",
    ["CO_CURSO", "NO_CURSO", "CO_CINE_ROTULO", "CO_CINE_AREA_GERAL",
     "CO_CINE_AREA_ESPECIFICA", "CO_CINE_AREA_DETALHADA", "TP_GRAU_ACADEMICO",
     "IN_GRATUITO", "TP_MODALIDADE_ENSINO", "TP_NIVEL_ACADEMICO"]),
   ("cine_rotulos", ["CO_CINE_ROTULO", "NO_CINE_ROTULO"]),
   ("cine_areas_gerais", ["CO_CINE_AREA_GERAL", "NO_CINE_AREA_GERAL"]),
   ("cine_areas_especificas", ["CO_CINE_AREA_ESPECIFICA", "NO_CINE_AREA_ESPECIFICA"]),
   ("cine_areas_detalhadas", ["CO_CINE_AREA_DETALHADA", "NO_CINE_AREA_DETALHADA"])]

/-- The static fact-table projection (`process_csv_files`, lines 250-257). -/
def mainTableColumns : List String :=
  ["NU_ANO_CENSO", "CO_REGIAO", "CO_UF", "CO_MUNICIPIO", "CO_IES", "CO_CURSO"]

/-- Run the dimension inserts in order; the first failure aborts the
chunk, leaving the writes already committed in place. -/
def insertDims : List (String × List String) → DataFrame → Store → Store × Option String
  | [], _, st => (st, none)
  | (name, cols) :: rest, chunk, st =>
    match insert_unique_values chunk name cols st with
    | .ok st' => insertDims rest chunk st'
    | .error e => (st, some e)

/-- The body of the chunk loop of `process_csv_files` (lines 170-261):
key-column coercion, dimension inserts, then the fact-table append. -/
def processChunk (chunk : DataFrame) (st : Store) : Store × Option String :=
  match coerceKeyCols chunk with
  | .error e => (st, some e)
  | .ok chunk' =>
    match insertDims dimSpecs chunk' st with
    | (st1, some e) => (st1, some e)
    | (st1, none) =>
      match chunk'.select mainTableColumns with
      | .error e => (st1, some e)
      | .ok main => (st1.appendTable "microdados" mainTableColumns main.rows, none)

/-- Process the chunks of one file in order; the first error stops the
file (there is no per-chunk handler). -/
def processChunks : List DataFrame → Store → Store × Option String
  | [], st => (st, none)
  | c :: cs, st =>
    match processChunk c st with
    | (st', none) => processChunks cs st'
    | (st', some e) => (st', some e)

/-- Process one CSV file: pull chunks from the reader; a reader error
surfaces after the chunks read before it were processed. -/
def processFile (usecols : Option (List String)) (f : CSVFile) (st : Store) :
    Store × Option String :=
  let (chunks, readErr) := extract_dataframe_from_csv f 50000 usecols
  match processChunks chunks st with
  | (st', some e) => (st', some e)
  | (st', none) => (st', readErr)

/-- `process_csv_files` (lines 156-261) over the discovered file list:
files are processed in order and an exception propagates to the caller —
there is no per-file handler, so the remaining files are not attempted. -/
def process_csv_files : List CSVFile → Option (List String) → Store → Store × Option String
  | [], _, st => (st, none)
  | f :: fs, u, st =>
    match processFile u f st with
    | (st', none) => process_csv_files fs u st'
    | (st', some e) => (st', some e)

/-- The static selected-column list (`extract_microdados.py`, lines 31-58,
identical to `SELECTED_COLUMNS` of `extract_config.py`). -/
def selected_columns : List String :=
  ["NU_ANO_CENSO", "NO_REGIAO", "CO_REGIAO", "NO_UF", "SG_UF", "CO_UF",
   "NO_MUNICIPIO", "CO_MUNICIPIO", "TP_ORGANIZACAO_ACADEMICA", "TP_REDE",
   "TP_CATEGORIA_ADMINISTRATIVA", "CO_IES", "NO_CURSO", "CO_CURSO",
   "NO_CINE_ROTULO", "CO_CINE_ROTULO", "CO_CINE_AREA_GERAL",
   "NO_CINE_AREA_GERAL", "CO_CINE_AREA_ESPECIFICA", "NO_CINE_AREA_ESPECIFICA",
   "CO_CINE_AREA_DETALHADA", "NO_CINE_AREA_DETALHADA", "TP_GRAU_ACADEMICO",
   "IN_GRATUITO", "TP_MODALIDADE_ENSINO", "TP_NIVEL_ACADEMICO"]

/-- Events logged by `extract_microdados`. -/
inductive LogEvent where
  | warningMissing (year : Int)
  | processingYear (year : Int)
  | yearError (year : Int) (msg : String)
deriving DecidableEq, Repr

/-- Python `range(start_year, end_year + 1)`. -/
def yearRange (startYear endYear : Int) : List Int :=
  (List.range (endYear + 1 - startYear).toNat).map (fun i => startYear + (i : Int))

/-- One iteration of the year loop of `extract_microdados` (lines 75-86):
a missing `<root>/<year>/dados` directory is a warning; an existing one is
processed under a per-year `try`/`except` that logs the error and moves
on.  `fs` abstracts the filesystem: the CSV files found under a year's
directory, or `none` when the directory does not exist. -/
def stepYear (fs : Int → Option (List CSVFile)) (acc : Store × List LogEvent)
    (y : Int) : Store × List LogEvent :=
  match fs y with
  | none => (acc.1, acc.2 ++ [LogEvent.warningMissing y])
  | some files =>
    match process_csv_files files (some selected_columns) acc.1 with
    | (st', none) => (st', acc.2 ++ [LogEvent.processingYear y])
    | (st', some e) => (st', acc.2 ++ [LogEvent.processingYear y, LogEvent.yearError y e])

/-- `extract_microdados` (lines 61-86): walk the configured year range. -/
def extract_microdados (startYear endYear : Int)
    (fs : Int → Option (List CSVFile)) : Store × List LogEvent :=
  (yearRange startYear endYear).foldl (stepYear fs) ([], [])

/-- `f"{no_col[3:].lower()}"`: the mapping-table name derived from a
`NO_` column (`create_mapping_table`, line 36). -/
def stripNO (noCol : String) : String := strLower (noCol.drop 3)

/-- `mapping_df[co_col].astype(int)` under `try`/`except ValueError`
(lines 40-43): convert the code column when every value coerces,
otherwise leave the rows unchanged (a warning is logged). -/
def convertCodes (rows : List Row) : List Row :=
  match mapO (fun r =>
      match coerceIntCell ((r.get? 0).getD Cell.missing) with
      | some n => some (r.set 0 (Cell.intCell n))
      | none => none) rows with
  | some rs => rs
  | none => rows

/-- `create_mapping_table` (lines 26-62): build the distinct
`(CO_, NO_)` pairs, drop the codes already stored, append the rest. -/
def create_mapping_table (df : DataFrame) (noCol coCol : String) (st : Store) :
    Except String Store :=
  match df.select [coCol, noCol] with
  | .error e => .error e
  | .ok sub =>
    let mappingRows := convertCodes (dedupKeepFirst sub.rows)
    match st.getTable (stripNO noCol) with
    | none =>
      if mappingRows.isEmpty then .ok st
      else .ok (st.appendTable (stripNO noCol) [coCol, noCol] mappingRows)
    | some t =>
      if coCol ∈ t.cols then
        let existing := t.rows.map (fun r => (r.get? (t.cols.indexOf coCol)).getD Cell.missing)
        let filtered :=
          if existing.isEmpty then mappingRows
          else mappingRows.filter (fun r => decide (((r.get? 0).getD Cell.missing) ∉ existing))
        if filtered.isEmpty then .ok st
        else .ok (st.appendTable (stripNO noCol) [coCol, noCol] filtered)
      else .error "no such column"

/-- `df[col] = df[col].astype(int)` under `try`/`except ValueError`
(`add_dataframe_to_db`, lines 82-87): convert when every value coerces,
otherwise leave the column unchanged. -/
def tryConvertColInt (df : DataFrame) (col : String) : DataFrame :=
  match mapO (fun r =>
      match coerceIntCell ((r.get? (df.cols.indexOf col)).getD Cell.missing) with
      | some n => some (r.set (df.cols.indexOf col) (Cell.intCell n))
      | none => none) df.rows with
  | some rs => ⟨df.cols, rs⟩
  | none => df

/-- A strict `astype` (`int8` for `IN_`/`TP_`, `int32` for `QT_`): a
non-coercible value raises out of the column loop. -/
def strictConvertCol (df : DataFrame) (col : String) (w : Int → Int) :
    Except String DataFrame :=
  match mapO (fun r =>
      match coerceIntCell ((r.get? (df.cols.indexOf col)).getD Cell.missing) with
      | some n => some (r.set (df.cols.indexOf col) (Cell.intCell (w n)))
      | none => none) df.rows with
  | some rs => .ok ⟨df.cols, rs⟩
  | none => .error "ValueError: cannot convert"

/-- One iteration of the column loop of `add_dataframe_to_db`
(lines 76-93), threading the DataFrame, the connection state and the
accumulated `no_columns` list. -/
def addColStep (acc : DataFrame × Store × List String) (col : String) :
    Except String (DataFrame × Store × List String) :=
  let (df, st, noCols) := acc
  if strStartsWith col "NO_" then
    match create_mapping_table df col (strReplace col "NO_" "CO_") st with
    | .error e => .error e
    | .ok st' => .ok (df, st', noCols ++ [col])
  else if strStartsWith col "CO_" then
    .ok (tryConvertColInt df col, st, noCols)
  else if strStartsWith col "SG_" then
    .ok (df, st, noCols)
  else if strStartsWith col "IN_" || strStartsWith col "TP_" then
    match strictConvertCol df col toInt8 with
    | .error e => .error e
    | .ok df' => .ok (df', st, noCols)
  else if strStartsWith col "QT_" then
    match strictConvertCol df col toInt32 with
    | .error e => .error e
    | .ok df' => .ok (df', st, noCols)
  else .ok (df, st, noCols)

/-- The column loop; on an exception the writes already committed to the
connection stay (SQLite writes are not rolled back by the `except`). -/
def addCols : List String → DataFrame × Store × List String →
    (DataFrame × Store × List String) × Option String
  | [], acc => (acc, none)
  | c :: cs, acc =>
    match addColStep acc c with
    | .ok acc' => addCols cs acc'
    | .error e => (acc, some e)

/-- `df.drop(columns=no_columns)` (line 96). -/
def dropColumns (df : DataFrame) (toDrop : List String) : DataFrame :=
  let keep := df.cols.filter (fun c => decide (c ∉ toDrop))
  ⟨keep, df.rows.map (fun r => keep.map (fun c => colVal df.cols c r))⟩

/-- `add_dataframe_to_db` (lines 65-100): route `NO_` columns to mapping
tables, coerce typed columns, drop the `NO_` columns and append the rest
to `table_name`; any exception is caught and logged, skipping the main
append but keeping the mapping-table writes already made. -/
def add_dataframe_to_db (df : DataFrame) (tableName : String) (st : Store) :
    Store × Option String :=
  match addCols df.cols (df, st, []) with
  | ((_, st', _), some e) => (st', some e)
  | ((df', st', noCols), none) =>
    let dropped := dropColumns df' noCols
    (st'.appendTable tableName dropped.cols dropped.rows, none)

/-- The rows currently stored in a table (empty when absent). -/
def tableRows (st : Store) (name : String) : List Row :=
  match st.getTable name with
  | none => []
  | some t => t.rows

/-- The code column of a stored mapping table, as read back by
`SELECT {co_col} FROM {mapping_table_name}` (line 47). -/
def tableCodes (st : Store) (name coCol : String) : List Cell :=
  match st.getTable name with
  | none => []
  | some t => t.rows.map (fun r => (r.get? (t.cols.indexOf coCol)).getD Cell.missing)

/-- Every value of column `col` of `df` is an integer cell. -/
def allIntCol (df : DataFrame) (col : String) : Prop :=
  ∀ r ∈ df.rows, ∃ n, colVal df.cols col r = Cell.intCell n

/-- A fully populated raw CSV row for the selected columns: names and
state siglas are text, everything else the numeral 1. -/
def fullRow : List (Option String) :=
  selected_columns.map (fun c =>
    if strStartsWith c "NO_" then some "Nome"
    else if strStartsWith c "SG_" then some "AC"
    else some "1")

/-- A well-formed one-row CSV file holding every selected column. -/
def goodFile : CSVFile := ⟨selected_columns, [fullRow]⟩

/-- A one-row file whose header also carries the auto-discoverable count
column `QT_ING_TOTAL`. -/
def qtFile : CSVFile := ⟨selected_columns ++ ["QT_ING_TOTAL"], [fullRow ++ [some "5"]]⟩

/-- A one-row file whose `CO_UF` field is not numeric, so the strict
`astype("int32")` coercion of the chunk raises. -/
def badCoerceFile : CSVFile :=
  ⟨selected_columns,
   [selected_columns.map (fun c =>
     if c = "CO_UF" then some "x"
     else if strStartsWith c "NO_" then some "Nome"
     else if strStartsWith c "SG_" then some "AC"
     else some "1")]⟩

/-- A one-row file lacking the `NO_REGIAO` column declared for the
`regions` dimension. -/
def noRegionFile : CSVFile :=
  ⟨selected_columns.filter (fun c => decide (c ≠ "NO_REGIAO")),
   [(selected_columns.filter (fun c => decide (c ≠ "NO_REGIAO"))).map (fun c =>
     if strStartsWith c "NO_" then some "Nome"
     else if strStartsWith c "SG_" then some "AC"
     else some "1")]⟩

/-- A filesystem with data only for year 2023: year 2022's `dados`
directory is absent. -/
def fsWitness : Int → Option (List CSVFile) :=
  fun y => if y = 2023 then some [goodFile] else none

/-- A filesystem where year 2022's directory holds a file whose key
column cannot coerce, and year 2023's holds a well-formed file. -/
def fsWitness2 : Int → Option (List CSVFile) :=
  fun y => if y = 2022 then some [badCoerceFile] else if y = 2023 then some [goodFile] else none

/-- The store invariant maintained by the pipeline: no stored row holds
a NaN, and the fact table, when present, has exactly the static fact
columns. -/
def pipelineInv (st : Store) : Prop :=
  (∀ p ∈ st, ∀ r ∈ p.2.rows, Cell.missing ∉ r) ∧
  (∀ t, st.getTable "microdados" = some t → t.cols = mainTableColumns)

/-- Every row of the batch is NaN-free and has one cell per column. -/
def chunkOk (df : DataFrame) : Prop :=
  ∀ r ∈ df.rows, Cell.missing ∉ r ∧ r.length = df.cols.length

/-! ## Foundation lemmas -/

theorem mapE_ok_length {f : α → Except String β} :
    ∀ {l : List α} {l' : List β}, mapE f l = .ok l' → l'.length = l.length := by
  intro l
  induction l with
  | nil => intro l' h; simp only [mapE] at h; cases h; rfl
  | cons a l ih =>
    intro l' h
    simp only [mapE] at h
    cases hfa : f a with
    | error e => rw [hfa] at h; cases h
    | ok b =>
      rw [hfa] at h
      cases hrec : mapE f l with
      | error e => rw [hrec] at h; cases h
      | ok l₀ =>
        rw [hrec] at h
        cases h
        simp [ih hrec]

theorem mapE_ok_mem_rev {f : α → Except String β} :
    ∀ {l : List α} {l' : List β}, mapE f l = .ok l' →
      ∀ b ∈ l', ∃ a ∈ l, f a = .ok b := by
  intro l
  induction l with
  | nil => intro l' h; simp only [mapE] at h; cases h; intro b hb; cases hb
  | cons a l ih =>
    intro l' h
    simp only [mapE] at h
    cases hfa : f a with
    | error e => rw [hfa] at h; cases h
    | ok b₀ =>
      rw [hfa] at h
      cases hrec : mapE f l with
      | error e => rw [hrec] at h; cases h
      | ok l₀ =>
        rw [hrec] at h
        cases h
        intro b hb
        cases hb with
        | head => exact ⟨a, List.mem_cons_self a l, hfa⟩
        | tail _ hb =>
          obtain ⟨a', ha', hfa'⟩ := ih hrec b hb
          exact ⟨a', List.mem_cons_of_mem _ ha', hfa'⟩

theorem mapE_ok_mem_fwd {f : α → Except String β} :
    ∀ {l : List α} {l' : List β}, mapE f l = .ok l' →
      ∀ a ∈ l, ∃ b ∈ l', f a = .ok b := by
  intro l
  induction l with
  | nil => intro l' _ a ha; cases ha
  | cons a₀ l ih =>
    intro l' h
    simp only [mapE] at h
    cases hfa : f a₀ with
    | error e => rw [hfa] at h; cases h
    | ok b₀ =>
      rw [hfa] at h
      cases hrec : mapE f l with
      | error e => rw [hrec] at h; cases h
      | ok l₀ =>
        rw [hrec] at h
        cases h
        intro a ha
        cases ha with
        | head => exact ⟨b₀, List.mem_cons_self b₀ l₀, hfa⟩
        | tail _ ha =>
          obtain ⟨b, hb, hfb⟩ := ih hrec a ha
          exact ⟨b, List.mem_cons_of_mem _ hb, hfb⟩

theorem mapO_some_length {f : α → Option β} :
    ∀ {l : List α} {l' : List β}, mapO f l = some l' → l'.length = l.length := by
  intro l
  induction l with
  | nil => intro l' h; simp only [mapO] at h; cases h; rfl
  | cons a l ih =>
    intro l' h
    simp only [mapO] at h
    cases hfa : f a with
    | none => rw [hfa] at h; cases h
    | some b =>
      rw [hfa] at h
      cases hrec : mapO f l with
      | none => rw [hrec] at h; cases h
      | some l₀ =>
        rw [hrec] at h
        cases h
        simp [ih hrec]

theorem mapO_some_mem_rev {f : α → Option β} :
    ∀ {l : List α} {l' : List β}, mapO f l = some l' →
      ∀ b ∈ l', ∃ a ∈ l, f a = some b := by
  intro l
  induction l with
  | nil => intro l' h; simp only [mapO] at h; cases h; intro b hb; cases hb
  | cons a l ih =>
    intro l' h
    simp only [mapO] at h
    cases hfa : f a with
    | none => rw [hfa] at h; cases h
    | some b₀ =>
      rw [hfa] at h
      cases hrec : mapO f l with
      | none => rw [hrec] at h; cases h
      | some l₀ =>
        rw [hrec] at h
        cases h
        intro b hb
        cases hb with
        | head => exact ⟨a, List.mem_cons_self a l, hfa⟩
        | tail _ hb =>
          obtain ⟨a', ha', hfa'⟩ := ih hrec b hb
          exact ⟨a', List.mem_cons_of_mem _ ha', hfa'⟩

theorem dedupAcc_subset [DecidableEq α] :
    ∀ (seen l : List α) (a : α), a ∈ dedupAcc seen l → a ∈ l := by
  intro seen l
  induction l generalizing seen with
  | nil => intro a h; cases h
  | cons b l ih =>
    intro a h
    simp only [dedupAcc] at h
    by_cases hb : b ∈ seen
    · rw [if_pos hb] at h
      exact List.mem_cons_of_mem _ (ih seen a h)
    · rw [if_neg hb] at h
      cases h with
      | head => exact List.mem_cons_self _ _
      | tail _ h => exact List.mem_cons_of_mem _ (ih _ a h)

theorem dedupAcc_not_mem_seen [DecidableEq α] :
    ∀ (seen l : List α) (a : α), a ∈ dedupAcc seen l → a ∉ seen := by
  intro seen l
  induction l generalizing seen with
  | nil => intro a h; cases h
  | cons b l ih =>
    intro a h
    simp only [dedupAcc] at h
    by_cases hb : b ∈ seen
    · rw [if_pos hb] at h
      exact ih seen a h
    · rw [if_neg hb] at h
      cases h with
      | head => exact hb
      | tail _ h =>
        intro hseen
        exact ih _ a h (List.mem_cons_of_mem _ hseen)

theorem dedupAcc_nodup [DecidableEq α] : ∀ (seen l : List α), (dedupAcc seen l).Nodup := by
  intro seen l
  induction l generalizing seen with
  | nil => exact List.nodup_nil
  | cons b l ih =>
    simp only [dedupAcc]
    by_cases hb : b ∈ seen
    · rw [if_pos hb]; exact ih seen
    · rw [if_neg hb]
      refine List.nodup_cons.mpr ⟨?_, ih _⟩
      intro hmem
      exact dedupAcc_not_mem_seen _ _ _ hmem (List.mem_cons_self _ _)

theorem dedupKeepFirst_subset [DecidableEq α] {l : List α} {a : α}
    (h : a ∈ dedupKeepFirst l) : a ∈ l :=
  dedupAcc_subset [] l a h

theorem dedupKeepFirst_nodup [DecidableEq α] (l : List α) : (dedupKeepFirst l).Nodup :=
  dedupAcc_nodup [] l

theorem dedupAcc_mem_of_mem [DecidableEq α] :
    ∀ (seen l : List α) (a : α), a ∈ l → a ∉ seen → a ∈ dedupAcc seen l := by
  intro seen l
  induction l generalizing seen with
  | nil => intro a h; cases h
  | cons b l ih =>
    intro a h hseen
    simp only [dedupAcc]
    by_cases hb : b ∈ seen
    · rw [if_pos hb]
      cases h with
      | head => exact absurd hb hseen
      | tail _ h => exact ih seen a h hseen
    · rw [if_neg hb]
      cases h with
      | head => exact List.mem_cons_self _ _
      | tail _ h =>
        by_cases hab : a = b
        · subst hab; exact List.mem_cons_self _ _
        · exact List.mem_cons_of_mem _
            (ih _ a h (by simp only [List.mem_cons]; rintro (rfl | hs) <;> [exact hab rfl; exact hseen hs]))

theorem dedupKeepFirst_mem_of_mem [DecidableEq α] {l : List α} {a : α} (h : a ∈ l) :
    a ∈ dedupKeepFirst l :=
  dedupAcc_mem_of_mem [] l a h (by intro hc; cases hc)

theorem dedupKeepFirst_ne_nil [DecidableEq α] {l : List α} (h : l ≠ []) :
    dedupKeepFirst l ≠ [] := by
  cases l with
  | nil => exact absurd rfl h
  | cons a l =>
    intro hc
    have := dedupKeepFirst_mem_of_mem (List.mem_cons_self a l)
    rw [hc] at this
    cases this

theorem getTable_appendTable_absent :
    ∀ (st : Store) (name : String) (cols : List String) (rows : List Row),
      st.getTable name = none →
      (st.appendTable name cols rows).getTable name = some ⟨cols, rows⟩ := by
  intro st
  induction st with
  | nil => intro name cols rows _; simp [Store.appendTable, Store.getTable]
  | cons p rest ih =>
    intro name cols rows h
    obtain ⟨n, t⟩ := p
    simp only [Store.getTable, List.find?] at h
    by_cases hn : n = name
    · simp [hn] at h
    · simp only [Store.appendTable, if_neg hn]
      simp only [Store.getTable, List.find?]
      rw [decide_eq_false hn] at h ⊢
      exact ih name cols rows h

theorem getTable_appendTable_present :
    ∀ (st : Store) (name : String) (t : Table) (cols : List String) (rows : List Row),
      st.getTable name = some t →
      (st.appendTable name cols rows).getTable name = some ⟨t.cols, t.rows ++ rows⟩ := by
  intro st
  induction st with
  | nil => intro name t cols rows h; simp [Store.getTable] at h
  | cons p rest ih =>
    intro name t cols rows h
    obtain ⟨n, t₀⟩ := p
    simp only [Store.getTable, List.find?] at h
    by_cases hn : n = name
    · rw [decide_eq_true hn] at h
      simp only [Option.map_some] at h
      cases h
      simp only [Store.appendTable, if_pos hn, Store.getTable, List.find?,
        decide_eq_true hn]
      rfl
    · rw [decide_eq_false hn] at h
      simp only [Store.appendTable, if_neg hn, Store.getTable, List.find?,
        decide_eq_false hn]
      exact ih name t cols rows h

theorem getTable_appendTable_other :
    ∀ (st : Store) (name other : String) (cols : List String) (rows : List Row),
      other ≠ name →
      (st.appendTable name cols rows).getTable other = st.getTable other := by
  intro st
  induction st with
  | nil =>
    intro name other cols rows hne
    simp only [Store.appendTable, Store.getTable, List.find?]
    rw [decide_eq_false (by intro hc; exact hne hc.symm)]
  | cons p rest ih =>
    intro name other cols rows hne
    obtain ⟨n, t⟩ := p
    by_cases hn : n = name
    · subst hn
      simp only [Store.appendTable, if_pos rfl, Store.getTable, List.find?]
      rw [decide_eq_false (show ¬(n = other) by intro hc; exact hne hc.symm)]
    · simp only [Store.appendTable, if_neg hn, Store.getTable, List.find?]
      by_cases ho : n = other
      · rw [decide_eq_true ho]
      · rw [decide_eq_false ho]
        exact ih name other cols rows hne

theorem chunksOfAux_join {α : Type} (n : Nat) (hn : 0 < n) :
    ∀ (fuel : Nat) (l : List α), l.length ≤ fuel → (chunksOfAux n fuel l).flatten = l := by
  intro fuel
  induction fuel with
  | zero =>
    intro l hl
    cases l with
    | nil => rfl
    | cons x xs => simp at hl
  | succ fuel ih =>
    intro l hl
    cases l with
    | nil => rfl
    | cons x xs =>
      simp only [chunksOfAux, if_neg (Nat.pos_iff_ne_zero.mp hn), List.flatten_cons]
      rw [ih ((x :: xs).drop n) (by simp only [List.length_drop]; omega)]
      exact List.take_append_drop n (x :: xs)

theorem chunksOfAux_mem_length {α : Type} (n : Nat) :
    ∀ (fuel : Nat) (l : List α) (c : List α), c ∈ chunksOfAux n fuel l → c.length ≤ n := by
  intro fuel
  induction fuel with
  | zero =>
    intro l c h
    cases l with
    | nil => cases h
    | cons x xs => cases h
  | succ fuel ih =>
    intro l c h
    cases l with
    | nil => cases h
    | cons x xs =>
      simp only [chunksOfAux] at h
      by_cases hn : n = 0
      · rw [if_pos hn] at h; cases h
      · rw [if_neg hn] at h
        cases h with
        | head => simp only [List.length_take]; omega
        | tail _ h => exact ih _ c h

theorem colVal_mem {cols : List String} {c : String} {r : Row}
    (hc : c ∈ cols) (hlen : r.length = cols.length) : colVal cols c r ∈ r := by
  unfold colVal
  have hidx : cols.indexOf c < cols.length := List.indexOf_lt_length.mpr hc
  have hidx' : cols.indexOf c < r.length := by omega
  rw [List.get?_eq_get hidx']
  exact List.get_mem r _ hidx'

theorem select_ok_spec {df : DataFrame} {cs : List String} {sub : DataFrame}
    (h : df.select cs = .ok sub) :
    sub.cols = cs ∧
    sub.rows = df.rows.map (fun r => cs.map (fun c => colVal df.cols c r)) ∧
    ∀ c ∈ cs, c ∈ df.cols := by
  unfold DataFrame.select at h
  by_cases hc : ∀ c ∈ cs, c ∈ df.cols
  · rw [if_pos hc] at h
    cases h
    exact ⟨rfl, rfl, hc⟩
  · rw [if_neg hc] at h
    cases h

theorem select_error_of_missing {df : DataFrame} {cs : List String}
    (h : ∃ c ∈ cs, c ∉ df.cols) : df.select cs = .error "KeyError" := by
  unfold DataFrame.select
  rw [if_neg]
  intro hall
  obtain ⟨c, hc, hnc⟩ := h
  exact hnc (hall c hc)

/-! ## Claim C7: chunk completeness of the reader -/

/-- C7: the reader slices a file into a finite sequence of batches in
file order (`chunksOf`, applied by `extract_dataframe_from_csv` to the
file's data rows), each holding at most the configured chunk row-count,
and concatenating the batches (before row-dropping) reproduces the
file's data rows in their original order, with no reordering, omission
or duplication. -/
theorem C7_chunk_completeness (n : Nat) (l : List (List (Option String))) (h : 0 < n) :
    (chunksOf n l).flatten = l ∧ ∀ c ∈ chunksOf n l, c.length ≤ n := by
  constructor
  · exact chunksOfAux_join n h l.length l (Nat.le_refl _)
  · intro c hc
    exact chunksOfAux_mem_length n l.length l c hc

/-- Witness for C7 at a concrete three-row file and chunk size 2. -/
theorem C7_witness :
    (chunksOf 2 [[some "a"], [none], [some "b"]]).flatten = [[some "a"], [none], [some "b"]] ∧
    ∀ c ∈ chunksOf 2 [[some "a"], [none], [some "b"]], c.length ≤ 2 :=
  C7_chunk_completeness 2 [[some "a"], [none], [some "b"]] (by decide)

/-! ## Claim C4: absence of a dimension column is an error, not a skip -/

/-- C4 as stated is false: `process_csv_files` performs no
column-presence check before the dimension inserts, so a batch lacking
the `NO_REGIAO` column declared for the `regions` dimension raises a
`KeyError` instead of skipping the dimension. -/
theorem C4_counterexample :
    (process_csv_files [noRegionFile] none []).2 = some "KeyError" := by decide

/-- C4 amended: when a column declared for a dimension is absent from
the batch, the dimension insert raises an error (which aborts the file,
caught only by the per-year handler); the dimension is never silently
skipped. -/
theorem C4_missing_column_errors (chunk : DataFrame) (tableName : String)
    (columns : List String) (st : Store)
    (h : ∃ c ∈ columns, c ∉ chunk.cols) :
    ∃ e, insert_unique_values chunk tableName columns st = Except.error e := by
  refine ⟨"KeyError", ?_⟩
  unfold insert_unique_values
  rw [select_error_of_missing h]

/-- Witness for C4 at a concrete batch lacking `NO_REGIAO`. -/
theorem C4_witness :
    ∃ e, insert_unique_values ⟨["CO_REGIAO"], []⟩ "regions" ["CO_REGIAO", "NO_REGIAO"] []
      = Except.error e :=
  C4_missing_column_errors ⟨["CO_REGIAO"], []⟩ "regions" ["CO_REGIAO", "NO_REGIAO"] []
    ⟨"NO_REGIAO", by decide, by decide⟩

/-! ## Claim C1: per-chunk dedup only; no end-of-run deduplication -/

/-- C1 as stated is false: after a complete run over two files sharing
the region key-tuple `(1, "Nome")`, the `regions` dimension table holds
two rows with identical key-tuples — nothing in the code performs an
end-of-run deduplication. -/
theorem C1_counterexample :
    ((process_csv_files [goodFile, goodFile] (some selected_columns) []).1.getTable "regions") =
      some ⟨["CO_REGIAO", "NO_REGIAO"],
        [[Cell.intCell 1, Cell.strCell "Nome"], [Cell.intCell 1, Cell.strCell "Nome"]]⟩ := by
  decide

/-- C1 amended: each single dimension insert appends a duplicate-free
batch (the per-chunk `drop_duplicates`); uniqueness of the stored rows
across chunks, files and runs is not established. -/
theorem C1_per_chunk_dedup (df : DataFrame) (tableName : String) (columns : List String)
    (st st' : Store) (h : insert_unique_values df tableName columns st = Except.ok st') :
    ∃ appended, tableRows st' tableName = tableRows st tableName ++ appended ∧
      appended.Nodup := by
  unfold insert_unique_values at h
  cases hsel : df.select columns with
  | error e => rw [hsel] at h; cases h
  | ok sub =>
    rw [hsel] at h
    cases h
    refine ⟨dedupKeepFirst sub.rows, ?_, dedupKeepFirst_nodup _⟩
    cases hget : st.getTable tableName with
    | none =>
      have h1 := getTable_appendTable_absent st tableName columns (dedupKeepFirst sub.rows) hget
      simp [tableRows, h1, hget]
    | some t =>
      have h1 := getTable_appendTable_present st tableName t columns (dedupKeepFirst sub.rows) hget
      simp [tableRows, h1, hget]

/-- Witness for C1's amended statement at a concrete one-row insert. -/
theorem C1_witness :
    ∃ appended,
      tableRows [("regions", ⟨["CO_REGIAO", "NO_REGIAO"], [[Cell.intCell 1, Cell.strCell "Nome"]]⟩)]
          "regions"
        = tableRows [] "regions" ++ appended ∧ appended.Nodup :=
  C1_per_chunk_dedup ⟨["CO_REGIAO", "NO_REGIAO"], [[Cell.intCell 1, Cell.strCell "Nome"]]⟩
    "regions" ["CO_REGIAO", "NO_REGIAO"] [] _ (by rfl)

/-! ## Claim C10: a mapping table never re-appends an existing code -/

/-- C10: any `(code, name)` pair whose code value is already stored in
the mapping table when `create_mapping_table` is called is filtered out,
so the call only appends rows whose code was absent before it. -/
theorem C10_mapping_no_readd (df : DataFrame) (noCol coCol : String) (st st' : Store)
    (h : create_mapping_table df noCol coCol st = Except.ok st') :
    ∃ appended, tableRows st' (stripNO noCol) = tableRows st (stripNO noCol) ++ appended ∧
      ∀ r ∈ appended, ((r.get? 0).getD Cell.missing) ∉ tableCodes st (stripNO noCol) coCol := by
  unfold create_mapping_table at h
  cases hsel : df.select [coCol, noCol] with
  | error e => rw [hsel] at h; cases h
  | ok sub =>
    rw [hsel] at h
    cases hget : st.getTable (stripNO noCol) with
    | none =>
      simp only [hget] at h
      by_cases hemp : (convertCodes (dedupKeepFirst sub.rows)).isEmpty = true
      · rw [if_pos hemp] at h
        cases h
        exact ⟨[], by simp, by intro r hr; cases hr⟩
      · rw [if_neg hemp] at h
        cases h
        refine ⟨convertCodes (dedupKeepFirst sub.rows), ?_, ?_⟩
        · have h1 := getTable_appendTable_absent st (stripNO noCol) [coCol, noCol]
            (convertCodes (dedupKeepFirst sub.rows)) hget
          simp [tableRows, h1, hget]
        · intro r _
          simp [tableCodes, hget]
    | some t =>
      simp only [hget] at h
      by_cases hcc : coCol ∈ t.cols
      · rw [if_pos hcc] at h
        have hcodes : tableCodes st (stripNO noCol) coCol =
            t.rows.map (fun row => (row.get? (t.cols.indexOf coCol)).getD Cell.missing) := by
          simp [tableCodes, hget]
        by_cases hee :
            (t.rows.map (fun row => (row.get? (t.cols.indexOf coCol)).getD Cell.missing)).isEmpty
              = true
        · rw [if_pos hee] at h
          by_cases hemp : (convertCodes (dedupKeepFirst sub.rows)).isEmpty = true
          · rw [if_pos hemp] at h
            cases h
            exact ⟨[], by simp, by intro r hr; cases hr⟩
          · rw [if_neg hemp] at h
            cases h
            refine ⟨convertCodes (dedupKeepFirst sub.rows), ?_, ?_⟩
            · have h1 := getTable_appendTable_present st (stripNO noCol) t [coCol, noCol]
                (convertCodes (dedupKeepFirst sub.rows)) hget
              simp [tableRows, h1, hget]
            · intro r _
              rw [hcodes, List.isEmpty_iff.mp hee]
              exact List.not_mem_nil _
        · rw [if_neg hee] at h
          by_cases hemp : ((convertCodes (dedupKeepFirst sub.rows)).filter
              (fun r => decide (((r.get? 0).getD Cell.missing) ∉
                t.rows.map (fun row =>
                  (row.get? (t.cols.indexOf coCol)).getD Cell.missing)))).isEmpty = true
          · rw [if_pos hemp] at h
            cases h
            exact ⟨[], by simp, by intro r hr; cases hr⟩
          · rw [if_neg hemp] at h
            cases h
            refine ⟨(convertCodes (dedupKeepFirst sub.rows)).filter
              (fun r => decide (((r.get? 0).getD Cell.missing) ∉
                t.rows.map (fun row =>
                  (row.get? (t.cols.indexOf coCol)).getD Cell.missing))), ?_, ?_⟩
            · have h1 := getTable_appendTable_present st (stripNO noCol) t [coCol, noCol]
                ((convertCodes (dedupKeepFirst sub.rows)).filter
                  (fun r => decide (((r.get? 0).getD Cell.missing) ∉
                    t.rows.map (fun row =>
                      (row.get? (t.cols.indexOf coCol)).getD Cell.missing)))) hget
              unfold tableRows
              rw [h1, hget]
            · intro r hr
              rw [hcodes]
              exact of_decide_eq_true (List.mem_filter.mp hr).2
      · rw [if_neg hcc] at h
        cases h

/-- Witness for C10: a call whose single code is already stored appends
nothing. -/
theorem C10_witness :
    ∃ appended,
      tableRows [("x", ⟨["CO_X", "NO_X"], [[Cell.intCell 1, Cell.strCell "a"]]⟩)] (stripNO "NO_X")
        = tableRows [("x", ⟨["CO_X", "NO_X"], [[Cell.intCell 1, Cell.strCell "a"]]⟩)] (stripNO "NO_X")
          ++ appended ∧
      ∀ r ∈ appended, ((r.get? 0).getD Cell.missing) ∉
        tableCodes [("x", ⟨["CO_X", "NO_X"], [[Cell.intCell 1, Cell.strCell "a"]]⟩)]
          (stripNO "NO_X") "CO_X" :=
  C10_mapping_no_readd ⟨["CO_X", "NO_X"], [[Cell.intCell 1, Cell.strCell "b"]]⟩ "NO_X" "CO_X"
    [("x", ⟨["CO_X", "NO_X"], [[Cell.intCell 1, Cell.strCell "a"]]⟩)]
    [("x", ⟨["CO_X", "NO_X"], [[Cell.intCell 1, Cell.strCell "a"]]⟩)] (by rfl)

/-! ## Claim C6: strict integer coercion of the key columns -/

theorem coerceCellInt32_ok_int {c c' : Cell} (h : coerceCellInt32 c = .ok c') :
    ∃ n, c' = Cell.intCell n := by
  unfold coerceCellInt32 at h
  cases hc : coerceIntCell c with
  | none => rw [hc] at h; cases h
  | some n => rw [hc] at h; cases h; exact ⟨toInt32 n, rfl⟩

theorem coerceColumn_cols {df : DataFrame} {col : String} {df' : DataFrame}
    (h : coerceColumn df col = .ok df') : df'.cols = df.cols := by
  unfold coerceColumn at h
  by_cases hc : col ∈ df.cols
  · rw [if_pos hc] at h
    cases hm : mapE (fun r =>
        match coerceCellInt32 ((r.get? (df.cols.indexOf col)).getD Cell.missing) with
        | .error e => .error e
        | .ok c => .ok (r.set (df.cols.indexOf col) c)) df.rows with
    | error e => rw [hm] at h; cases h
    | ok rows => rw [hm] at h; cases h; rfl
  · rw [if_neg hc] at h; cases h; rfl

theorem coerceColumn_rows_rel {df : DataFrame} {col : String} {df' : DataFrame}
    (h : coerceColumn df col = .ok df') (hc : col ∈ df.cols) :
    ∀ r' ∈ df'.rows, ∃ r ∈ df.rows, ∃ c,
      coerceCellInt32 ((r.get? (df.cols.indexOf col)).getD Cell.missing) = .ok c ∧
      r' = r.set (df.cols.indexOf col) c := by
  unfold coerceColumn at h
  rw [if_pos hc] at h
  cases hm : mapE (fun r =>
      match coerceCellInt32 ((r.get? (df.cols.indexOf col)).getD Cell.missing) with
      | .error e => .error e
      | .ok c => .ok (r.set (df.cols.indexOf col) c)) df.rows with
  | error e => rw [hm] at h; cases h
  | ok rows =>
    rw [hm] at h
    cases h
    intro r' hr'
    obtain ⟨r, hr, hstep⟩ := mapE_ok_mem_rev hm r' hr'
    cases hcc : coerceCellInt32 ((r.get? (df.cols.indexOf col)).getD Cell.missing) with
    | error e => rw [hcc] at hstep; cases hstep
    | ok c => rw [hcc] at hstep; cases hstep; exact ⟨r, hr, c, hcc, rfl⟩

theorem coerceColumn_rows_fwd {df : DataFrame} {col : String} {df' : DataFrame}
    (h : coerceColumn df col = .ok df') (hc : col ∈ df.cols) :
    ∀ r ∈ df.rows, ∃ c,
      coerceCellInt32 ((r.get? (df.cols.indexOf col)).getD Cell.missing) = .ok c ∧
      r.set (df.cols.indexOf col) c ∈ df'.rows := by
  unfold coerceColumn at h
  rw [if_pos hc] at h
  cases hm : mapE (fun r =>
      match coerceCellInt32 ((r.get? (df.cols.indexOf col)).getD Cell.missing) with
      | .error e => .error e
      | .ok c => .ok (r.set (df.cols.indexOf col) c)) df.rows with
  | error e => rw [hm] at h; cases h
  | ok rows =>
    rw [hm] at h
    cases h
    intro r hr
    obtain ⟨r', hr', hstep⟩ := mapE_ok_mem_fwd hm r hr
    cases hcc : coerceCellInt32 ((r.get? (df.cols.indexOf col)).getD Cell.missing) with
    | error e => rw [hcc] at hstep; cases hstep
    | ok c => rw [hcc] at hstep; cases hstep; exact ⟨c, rfl, hr'⟩

theorem coerceColumn_id_of_absent {df : DataFrame} {col : String} {df' : DataFrame}
    (h : coerceColumn df col = .ok df') (hc : col ∉ df.cols) : df' = df := by
  unfold coerceColumn at h
  rw [if_neg hc] at h
  cases h
  rfl

theorem coerceColumn_allInt {df : DataFrame} {col : String} {df' : DataFrame}
    (hc : col ∈ df.cols) (h : coerceColumn df col = .ok df') : allIntCol df' col := by
  intro r' hr'
  obtain ⟨r, _, c, hcc, rfl⟩ := coerceColumn_rows_rel h hc r' hr'
  obtain ⟨n, rfl⟩ := coerceCellInt32_ok_int hcc
  have hcols := coerceColumn_cols h
  have hi : df.cols.indexOf col < r.length := by
    cases hg : r.get? (df.cols.indexOf col) with
    | none =>
      exfalso
      rw [hg] at hcc
      simp only [Option.getD_none, coerceCellInt32, coerceIntCell] at hcc
      exact Except.noConfusion hcc
    | some cell =>
      obtain ⟨hlt, _⟩ := List.get?_eq_some.mp hg
      exact hlt
  refine ⟨n, ?_⟩
  unfold colVal
  rw [hcols]
  rw [List.get?_set_eq_of_lt _ hi]
  rfl

theorem coerceColumn_pres_cell {df : DataFrame} {col' : String} {df' : DataFrame}
    (h : coerceColumn df col' = .ok df') (col : String) (hne : col ≠ col')
    (hcol : col ∈ df.cols) :
    (∀ r' ∈ df'.rows, ∃ r ∈ df.rows, colVal df'.cols col r' = colVal df.cols col r) ∧
    (∀ r ∈ df.rows, ∃ r' ∈ df'.rows, colVal df'.cols col r' = colVal df.cols col r) := by
  by_cases hc' : col' ∈ df.cols
  · have hcols := coerceColumn_cols h
    have hij : df.cols.indexOf col ≠ df.cols.indexOf col' := by
      intro heq
      exact hne ((List.indexOf_inj hcol hc').mp heq)
    constructor
    · intro r' hr'
      obtain ⟨r, hr, c, _, rfl⟩ := coerceColumn_rows_rel h hc' r' hr'
      refine ⟨r, hr, ?_⟩
      unfold colVal
      rw [hcols]
      rw [List.get?_set_ne _ _ (fun he => hij he.symm)]
    · intro r hr
      obtain ⟨c, _, hmem⟩ := coerceColumn_rows_fwd h hc' r hr
      refine ⟨r.set (df.cols.indexOf col') c, hmem, ?_⟩
      unfold colVal
      rw [hcols]
      rw [List.get?_set_ne _ _ (fun he => hij he.symm)]
  · cases coerceColumn_id_of_absent h hc'
    exact ⟨fun r' hr' => ⟨r', hr', rfl⟩, fun r hr => ⟨r, hr, rfl⟩⟩

theorem coerceCols_cols : ∀ (cs : List String) (df df' : DataFrame),
    coerceCols cs df = .ok df' → df'.cols = df.cols := by
  intro cs
  induction cs with
  | nil => intro df df' h; cases h; rfl
  | cons c cs ih =>
    intro df df' h
    simp only [coerceCols] at h
    cases hc : coerceColumn df c with
    | error e => rw [hc] at h; cases h
    | ok df₁ =>
      rw [hc] at h
      rw [ih df₁ df' h, coerceColumn_cols hc]

theorem coerceCols_pres_allInt : ∀ (cs : List String) (df df' : DataFrame) (col : String),
    coerceCols cs df = .ok df' → col ∈ df.cols → allIntCol df col → allIntCol df' col := by
  intro cs
  induction cs with
  | nil => intro df df' col h _ hall; cases h; exact hall
  | cons c cs ih =>
    intro df df' col h hcol hall
    simp only [coerceCols] at h
    cases hc : coerceColumn df c with
    | error e => rw [hc] at h; cases h
    | ok df₁ =>
      rw [hc] at h
      have hcols := coerceColumn_cols hc
      by_cases hcc : col = c
      · subst hcc
        exact ih df₁ df' col h (hcols ▸ hcol) (coerceColumn_allInt hcol hc)
      · have hall₁ : allIntCol df₁ col := by
          intro r' hr'
          obtain ⟨r, hr, heq⟩ := (coerceColumn_pres_cell hc col hcc hcol).1 r' hr'
          obtain ⟨n, hn⟩ := hall r hr
          exact ⟨n, heq.trans hn⟩
        exact ih df₁ df' col h (hcols ▸ hcol) hall₁

theorem coerceCols_allInt : ∀ (cs : List String) (df df' : DataFrame) (col : String),
    coerceCols cs df = .ok df' → col ∈ cs → col ∈ df.cols → allIntCol df' col := by
  intro cs
  induction cs with
  | nil => intro df df' col _ hmem; cases hmem
  | cons c cs ih =>
    intro df df' col h hmem hcol
    simp only [coerceCols] at h
    cases hc : coerceColumn df c with
    | error e => rw [hc] at h; cases h
    | ok df₁ =>
      rw [hc] at h
      have hcols := coerceColumn_cols hc
      cases hmem with
      | head =>
        exact coerceCols_pres_allInt cs df₁ df' c h (hcols ▸ hcol)
          (coerceColumn_allInt hcol hc)
      | tail _ hmem =>
        exact ih df₁ df' col h hmem (hcols ▸ hcol)

theorem coerceColumn_not_ok_of_failing {df : DataFrame} {col : String}
    (hc : col ∈ df.cols)
    (hfail : ∃ r ∈ df.rows, coerceIntCell (colVal df.cols col r) = none) :
    ∀ df', coerceColumn df col ≠ .ok df' := by
  intro df' h
  obtain ⟨r, hr, hnone⟩ := hfail
  obtain ⟨c, hcc, _⟩ := coerceColumn_rows_fwd h hc r hr
  unfold colVal at hnone
  unfold coerceCellInt32 at hcc
  rw [hnone] at hcc
  cases hcc

theorem coerceCols_error_of_failing : ∀ (cs : List String) (df : DataFrame) (col : String),
    col ∈ cs → col ∈ df.cols →
    (∃ r ∈ df.rows, coerceIntCell (colVal df.cols col r) = none) →
    ∀ df', coerceCols cs df ≠ .ok df' := by
  intro cs
  induction cs with
  | nil => intro df col hmem; cases hmem
  | cons c cs ih =>
    intro df col hmem hcol hfail df' h
    simp only [coerceCols] at h
    cases hc : coerceColumn df c with
    | error e => rw [hc] at h; cases h
    | ok df₁ =>
      rw [hc] at h
      cases hmem with
      | head => exact coerceColumn_not_ok_of_failing hcol hfail df₁ hc
      | tail _ hmem =>
        by_cases hcc : col = c
        · subst hcc
          exact coerceColumn_not_ok_of_failing hcol hfail df₁ hc
        · have hcols := coerceColumn_cols hc
          have hfail₁ : ∃ r₁ ∈ df₁.rows, coerceIntCell (colVal df₁.cols col r₁) = none := by
            obtain ⟨r, hr, hnone⟩ := hfail
            obtain ⟨r', hr', heq⟩ := (coerceColumn_pres_cell hc col hcc hcol).2 r hr
            exact ⟨r', hr', heq ▸ hnone⟩
          exact ih df₁ col hmem (hcols ▸ hcol) hfail₁ df' h

/-- C6: `process_csv_files` coerces the present key columns (`CO_UF`,
`CO_REGIAO`, `CO_MUNICIPIO`, `TP_GRAU_ACADEMICO`) of each produced batch
to strict integers, and any non-coercible value makes the coercion a
hard error for the chunk — the error is raised, not a silent skip of the
offending row. -/
theorem C6_strict_int_coercion (chunk : DataFrame) :
    (∀ chunk', coerceKeyCols chunk = Except.ok chunk' →
      ∀ col ∈ keyCols, col ∈ chunk.cols → allIntCol chunk' col) ∧
    (∀ col ∈ keyCols, col ∈ chunk.cols →
      (∃ r ∈ chunk.rows, coerceIntCell (colVal chunk.cols col r) = none) →
      ∃ e, coerceKeyCols chunk = Except.error e) := by
  constructor
  · intro chunk' h col hk hc
    exact coerceCols_allInt keyCols chunk chunk' col h hk hc
  · intro col hk hc hfail
    cases h : coerceKeyCols chunk with
    | error e => exact ⟨e, rfl⟩
    | ok chunk' =>
      exact absurd h (coerceCols_error_of_failing keyCols chunk col hk hc hfail chunk')

/-- Witness for C6: a coercible `CO_UF` column becomes integers; a
non-numeric `CO_UF` value raises. -/
theorem C6_witness :
    allIntCol ⟨["CO_UF"], [[Cell.intCell 12]]⟩ "CO_UF" ∧
    (∃ e, coerceKeyCols ⟨["CO_UF"], [[Cell.strCell "x"]]⟩ = Except.error e) := by
  constructor
  · exact (C6_strict_int_coercion ⟨["CO_UF"], [[Cell.strCell "12"]]⟩).1
      ⟨["CO_UF"], [[Cell.intCell 12]]⟩ (by rfl) "CO_UF" (by decide) (by decide)
  · exact (C6_strict_int_coercion ⟨["CO_UF"], [[Cell.strCell "x"]]⟩).2 "CO_UF" (by decide)
      (by decide) ⟨[Cell.strCell "x"], by decide, by decide⟩

/-! ## Claims C8 and C3: the year loop of `extract_microdados` -/

theorem stepYear_log_mono {fs : Int → Option (List CSVFile)}
    {acc : Store × List LogEvent} {y : Int} {ev : LogEvent} (hev : ev ∈ acc.2) :
    ev ∈ (stepYear fs acc y).2 := by
  cases hfs : fs y with
  | none =>
    simp only [stepYear, hfs]
    exact List.mem_append_left _ hev
  | some files =>
    simp only [stepYear, hfs]
    cases hp : process_csv_files files (some selected_columns) acc.1 with
    | mk st' err =>
      cases err with
      | none => exact List.mem_append_left _ hev
      | some e => exact List.mem_append_left _ hev

theorem foldl_stepYear_log_mono (fs : Int → Option (List CSVFile)) :
    ∀ (l : List Int) (acc : Store × List LogEvent) (ev : LogEvent),
      ev ∈ acc.2 → ev ∈ (l.foldl (stepYear fs) acc).2 := by
  intro l
  induction l with
  | nil => intro acc ev hev; exact hev
  | cons y l ih =>
    intro acc ev hev
    exact ih (stepYear fs acc y) ev (stepYear_log_mono hev)

theorem processingYear_mem (fs : Int → Option (List CSVFile)) :
    ∀ (l : List Int) (acc : Store × List LogEvent) (y : Int),
      y ∈ l → fs y ≠ none →
      LogEvent.processingYear y ∈ (l.foldl (stepYear fs) acc).2 := by
  intro l
  induction l with
  | nil => intro acc y hmem; cases hmem
  | cons y₀ l ih =>
    intro acc y hmem hne
    cases hmem with
    | head =>
      refine foldl_stepYear_log_mono fs l (stepYear fs acc y₀) _ ?_
      cases hfs : fs y₀ with
      | none => exact absurd hfs hne
      | some files =>
        simp only [stepYear, hfs]
        cases hp : process_csv_files files (some selected_columns) acc.1 with
        | mk st' err =>
          cases err with
          | none =>
            exact List.mem_append_right _ (List.mem_singleton.mpr rfl)
          | some e =>
            exact List.mem_append_right _ (List.mem_cons_self _ _)
    | tail _ hmem =>
      exact ih (stepYear fs acc y₀) y hmem hne

theorem warningMissing_mem (fs : Int → Option (List CSVFile)) :
    ∀ (l : List Int) (acc : Store × List LogEvent) (y : Int),
      y ∈ l → fs y = none →
      LogEvent.warningMissing y ∈ (l.foldl (stepYear fs) acc).2 := by
  intro l
  induction l with
  | nil => intro acc y hmem; cases hmem
  | cons y₀ l ih =>
    intro acc y hmem hnone
    cases hmem with
    | head =>
      refine foldl_stepYear_log_mono fs l (stepYear fs acc y₀) _ ?_
      simp only [stepYear, hnone]
      exact List.mem_append_right _ (List.mem_singleton.mpr rfl)
    | tail _ hmem =>
      exact ih (stepYear fs acc y₀) y hmem hnone

theorem log_mem_inv (fs : Int → Option (List CSVFile)) :
    ∀ (l : List Int) (acc : Store × List LogEvent) (ev : LogEvent),
      ev ∈ (l.foldl (stepYear fs) acc).2 →
      ev ∈ acc.2 ∨ ∃ y ∈ l,
        (ev = LogEvent.warningMissing y ∧ fs y = none) ∨
        (ev = LogEvent.processingYear y ∧ fs y ≠ none) ∨
        (∃ m, ev = LogEvent.yearError y m ∧ fs y ≠ none) := by
  intro l
  induction l with
  | nil => intro acc ev hev; exact Or.inl hev
  | cons y₀ l ih =>
    intro acc ev hev
    rcases ih (stepYear fs acc y₀) ev hev with hstep | ⟨y, hy, hcase⟩
    · cases hfs : fs y₀ with
      | none =>
        simp only [stepYear, hfs] at hstep
        rcases List.mem_append.mp hstep with hacc | hnew
        · exact Or.inl hacc
        · refine Or.inr ⟨y₀, List.mem_cons_self _ _, Or.inl ⟨List.mem_singleton.mp hnew, hfs⟩⟩
      | some files =>
        simp only [stepYear, hfs] at hstep
        cases hp : process_csv_files files (some selected_columns) acc.1 with
        | mk st' err =>
          rw [hp] at hstep
          cases err with
          | none =>
            rcases List.mem_append.mp hstep with hacc | hnew
            · exact Or.inl hacc
            · refine Or.inr ⟨y₀, List.mem_cons_self _ _,
                Or.inr (Or.inl ⟨List.mem_singleton.mp hnew, by rw [hfs]; exact Option.some_ne_none _⟩)⟩
          | some e =>
            rcases List.mem_append.mp hstep with hacc | hnew
            · exact Or.inl hacc
            · cases hnew with
              | head =>
                exact Or.inr ⟨y₀, List.mem_cons_self _ _,
                  Or.inr (Or.inl ⟨rfl, by rw [hfs]; exact Option.some_ne_none _⟩)⟩
              | tail _ hnew =>
                refine Or.inr ⟨y₀, List.mem_cons_self _ _,
                  Or.inr (Or.inr ⟨e, List.mem_singleton.mp hnew, by rw [hfs]; exact Option.some_ne_none _⟩)⟩
    · exact Or.inr ⟨y, List.mem_cons_of_mem _ hy, hcase⟩

/-- C8: a year in the configured range whose `<root>/<year>/dados`
directory does not exist is skipped with a warning — never a logged
error — and every other year of the range whose directory exists is
still processed. -/
theorem C8_directory_skip (startYear endYear : Int) (fs : Int → Option (List CSVFile))
    (y : Int) (hy : y ∈ yearRange startYear endYear) (hmiss : fs y = none) :
    LogEvent.warningMissing y ∈ (extract_microdados startYear endYear fs).2 ∧
    (∀ m, LogEvent.yearError y m ∉ (extract_microdados startYear endYear fs).2) ∧
    (∀ y', y' ∈ yearRange startYear endYear → fs y' ≠ none →
      LogEvent.processingYear y' ∈ (extract_microdados startYear endYear fs).2) := by
  refine ⟨warningMissing_mem fs _ ([], []) y hy hmiss, ?_, ?_⟩
  · intro m hmem
    rcases log_mem_inv fs _ ([], []) _ hmem with hacc | ⟨y₁, _, hcase⟩
    · cases hacc
    · rcases hcase with ⟨heq, _⟩ | ⟨heq, _⟩ | ⟨m', heq, hne⟩
      · cases heq
      · cases heq
      · cases heq; exact hne hmiss
  · intro y' hy' hne
    exact processingYear_mem fs _ ([], []) y' hy' hne

/-- Witness for C8: with data present only for 2023, year 2022 yields a
warning and no error while 2023 is still processed. -/
theorem C8_witness :
    LogEvent.warningMissing 2022 ∈ (extract_microdados 2022 2023 fsWitness).2 ∧
    (∀ m, LogEvent.yearError 2022 m ∉ (extract_microdados 2022 2023 fsWitness).2) ∧
    (∀ y', y' ∈ yearRange 2022 2023 → fsWitness y' ≠ none →
      LogEvent.processingYear y' ∈ (extract_microdados 2022 2023 fsWitness).2) :=
  C8_directory_skip 2022 2023 fsWitness 2022 (by decide) (by rfl)

/-- C3 as stated is false: `process_csv_files` has no per-file handler,
so after the first file of a directory fails (here: a non-numeric
`CO_UF` makes the key coercion raise), the remaining files of that
directory are never processed — processing the same good file alone does
create the `regions` table. -/
theorem C3_counterexample :
    (process_csv_files [badCoerceFile, goodFile] (some selected_columns) []).2 ≠ none ∧
    (process_csv_files [badCoerceFile, goodFile] (some selected_columns) []).1.getTable "regions"
      = none ∧
    (process_csv_files [goodFile] (some selected_columns) []).1.getTable "regions" ≠ none := by
  refine ⟨by decide, by decide, by decide⟩

/-- C3 amended: failure isolation exists only at year granularity — the
per-year handler of `extract_microdados` catches the error, so a year
whose directory exists is always attempted, whatever happened to the
files of the previous years; within one year's directory, a failing file
aborts the remaining files. -/
theorem C3_per_year_isolation (startYear endYear : Int)
    (fs : Int → Option (List CSVFile)) (y : Int)
    (hy : y ∈ yearRange startYear endYear) (hsome : fs y ≠ none) :
    LogEvent.processingYear y ∈ (extract_microdados startYear endYear fs).2 :=
  processingYear_mem fs _ ([], []) y hy hsome

/-- Witness for C3's amended statement: year 2023 is processed even
though year 2022's file fails. -/
theorem C3_witness :
    LogEvent.processingYear 2023 ∈ (extract_microdados 2022 2023 fsWitness2).2 :=
  C3_per_year_isolation 2022 2023 fsWitness2 2023 (by decide) (by decide)

/-! ## Claims C5 and C2: pipeline store invariants -/

theorem parseChunk_spec {header sel : List String} {d : Bool}
    {raws : List (List (Option String))} {df : DataFrame}
    (h : parseChunk header sel d raws = .ok df) :
    df.cols = sel ∧ ∀ r ∈ df.rows, r.length = sel.length := by
  unfold parseChunk at h
  cases hm : mapE (fun raw =>
      mapE (fun c => readCell d c ((raw.get? (header.indexOf c)).getD none)) sel) raws with
  | error e => rw [hm] at h; cases h
  | ok rows =>
    rw [hm] at h
    cases h
    refine ⟨rfl, ?_⟩
    intro r hr
    obtain ⟨raw, _, hinner⟩ := mapE_ok_mem_rev hm r hr
    exact mapE_ok_length hinner

theorem parseChunks_ok {header sel : List String} {d : Bool} :
    ∀ (raws : List (List (List (Option String)))) (df : DataFrame),
      df ∈ (parseChunks header sel d raws).1 → chunkOk df := by
  intro raws
  induction raws with
  | nil => intro df h; cases h
  | cons c cs ih =>
    intro df h
    simp only [parseChunks] at h
    cases hp : parseChunk header sel d c with
    | error e => rw [hp] at h; cases h
    | ok p =>
      rw [hp] at h
      cases hrec : parseChunks header sel d cs with
      | mk rest err =>
        rw [hrec] at h
        cases h with
        | head =>
          intro r hr
          simp only [dropnaAny, List.mem_filter] at hr
          obtain ⟨hmem, hdec⟩ := hr
          refine ⟨of_decide_eq_true hdec, ?_⟩
          obtain ⟨hcols, hlen⟩ := parseChunk_spec hp
          simp only [dropnaAny, hcols]
          exact hlen r hmem
        | tail _ h =>
          apply ih
          rw [hrec]
          exact h

theorem extract_chunks_ok {f : CSVFile} {n : Nat} {u : Option (List String)} :
    ∀ df ∈ (extract_dataframe_from_csv f n u).1, chunkOk df := by
  intro df h
  unfold extract_dataframe_from_csv at h
  cases u with
  | none => exact parseChunks_ok _ df h
  | some usecols =>
    simp only [] at h
    by_cases hall : ∀ c ∈ combineUsecols usecols f.header, c ∈ f.header
    · rw [if_pos hall] at h
      exact parseChunks_ok _ df h
    · rw [if_neg hall] at h
      cases h

theorem coerceColumn_chunkOk {df : DataFrame} {col : String} {df' : DataFrame}
    (h : coerceColumn df col = .ok df') (hok : chunkOk df) : chunkOk df' := by
  by_cases hc : col ∈ df.cols
  · intro r' hr'
    obtain ⟨r, hr, c, hcc, rfl⟩ := coerceColumn_rows_rel h hc r' hr'
    obtain ⟨hmiss, hlen⟩ := hok r hr
    obtain ⟨m, rfl⟩ := coerceCellInt32_ok_int hcc
    constructor
    · intro hmem
      rcases List.mem_or_eq_of_mem_set hmem with hin | heq
      · exact hmiss hin
      · cases heq
    · rw [List.length_set, coerceColumn_cols h]
      exact hlen
  · cases coerceColumn_id_of_absent h hc
    exact hok

theorem coerceCols_chunkOk : ∀ (cs : List String) (df df' : DataFrame),
    coerceCols cs df = .ok df' → chunkOk df → chunkOk df' := by
  intro cs
  induction cs with
  | nil => intro df df' h hok; cases h; exact hok
  | cons c cs ih =>
    intro df df' h hok
    simp only [coerceCols] at h
    cases hc : coerceColumn df c with
    | error e => rw [hc] at h; cases h
    | ok df₁ =>
      rw [hc] at h
      exact ih df₁ df' h (coerceColumn_chunkOk hc hok)

theorem select_rows_ok {df : DataFrame} {cs : List String} {sub : DataFrame}
    (h : df.select cs = .ok sub) (hok : chunkOk df) :
    ∀ r' ∈ sub.rows, Cell.missing ∉ r' := by
  obtain ⟨_, hrows, hcs⟩ := select_ok_spec h
  intro r' hr'
  rw [hrows] at hr'
  obtain ⟨r, hr, rfl⟩ := List.mem_map.mp hr'
  intro hmem
  obtain ⟨c, hc, hcv⟩ := List.mem_map.mp hmem
  obtain ⟨hmiss, hlen⟩ := hok r hr
  have := colVal_mem (hcs c hc) hlen
  rw [hcv] at this
  exact hmiss this

theorem appendTable_storeOk {st : Store} {name : String} {cols : List String}
    {rows : List Row}
    (hst : ∀ p ∈ st, ∀ r ∈ p.2.rows, Cell.missing ∉ r)
    (hrows : ∀ r ∈ rows, Cell.missing ∉ r) :
    ∀ p ∈ st.appendTable name cols rows, ∀ r ∈ p.2.rows, Cell.missing ∉ r := by
  induction st with
  | nil =>
    intro p hp
    cases hp with
    | head => exact hrows
    | tail _ hp => cases hp
  | cons q rest ih =>
    obtain ⟨n, t⟩ := q
    intro p hp
    simp only [Store.appendTable] at hp
    by_cases hn : n = name
    · rw [if_pos hn] at hp
      cases hp with
      | head =>
        intro r hr
        rcases List.mem_append.mp hr with h1 | h2
        · exact hst (n, t) (List.mem_cons_self _ _) r h1
        · exact hrows r h2
      | tail _ hp =>
        exact hst p (List.mem_cons_of_mem _ hp)
    · rw [if_neg hn] at hp
      cases hp with
      | head => exact hst (n, t) (List.mem_cons_self _ _)
      | tail _ hp =>
        exact ih (fun q hq => hst q (List.mem_cons_of_mem _ hq)) p hp

theorem appendTable_microCols_other {st : Store} {name : String} {cols : List String}
    {rows : List Row} (hne : name ≠ "microdados")
    (hmc : ∀ t, st.getTable "microdados" = some t → t.cols = mainTableColumns) :
    ∀ t, (st.appendTable name cols rows).getTable "microdados" = some t →
      t.cols = mainTableColumns := by
  intro t ht
  rw [getTable_appendTable_other st name "microdados" cols rows (fun hc => hne hc.symm)] at ht
  exact hmc t ht

theorem appendTable_microCols_main {st : Store} {rows : List Row}
    (hmc : ∀ t, st.getTable "microdados" = some t → t.cols = mainTableColumns) :
    ∀ t, (st.appendTable "microdados" mainTableColumns rows).getTable "microdados" = some t →
      t.cols = mainTableColumns := by
  intro t ht
  cases hget : st.getTable "microdados" with
  | none =>
    rw [getTable_appendTable_absent st _ _ _ hget] at ht
    cases ht
    rfl
  | some t₀ =>
    rw [getTable_appendTable_present st _ _ _ _ hget] at ht
    cases ht
    exact hmc t₀ hget

theorem insert_unique_values_inv {df : DataFrame} {name : String} {cols : List String}
    {st st' : Store} (h : insert_unique_values df name cols st = .ok st')
    (hchunk : chunkOk df) (hne : name ≠ "microdados") (hinv : pipelineInv st) :
    pipelineInv st' := by
  unfold insert_unique_values at h
  cases hsel : df.select cols with
  | error e => rw [hsel] at h; cases h
  | ok sub =>
    rw [hsel] at h
    cases h
    obtain ⟨hso, hmc⟩ := hinv
    constructor
    · exact appendTable_storeOk hso
        (fun r hr => select_rows_ok hsel hchunk r (dedupKeepFirst_subset hr))
    · exact appendTable_microCols_other hne hmc

theorem insertDims_inv : ∀ (specs : List (String × List String)) (chunk : DataFrame)
    (st : Store), (∀ p ∈ specs, p.1 ≠ "microdados") → chunkOk chunk → pipelineInv st →
    pipelineInv (insertDims specs chunk st).1 := by
  intro specs
  induction specs with
  | nil => intro chunk st _ _ hinv; exact hinv
  | cons q specs ih =>
    obtain ⟨name, cols⟩ := q
    intro chunk st hnames hchunk hinv
    simp only [insertDims]
    cases hins : insert_unique_values chunk name cols st with
    | error e => exact hinv
    | ok st' =>
      exact ih chunk st' (fun p hp => hnames p (List.mem_cons_of_mem _ hp)) hchunk
        (insert_unique_values_inv hins hchunk (hnames (name, cols) (List.mem_cons_self _ _)) hinv)

theorem processChunk_inv {chunk : DataFrame} {st : Store}
    (hchunk : chunkOk chunk) (hinv : pipelineInv st) :
    pipelineInv (processChunk chunk st).1 := by
  cases hck : coerceKeyCols chunk with
  | error e =>
    simp only [processChunk, hck]
    exact hinv
  | ok chunk' =>
    have hchunk' : chunkOk chunk' := coerceCols_chunkOk keyCols chunk chunk' hck hchunk
    have hdims := insertDims_inv dimSpecs chunk' st (by decide) hchunk' hinv
    cases hid : insertDims dimSpecs chunk' st with
    | mk st1 err =>
      rw [hid] at hdims
      cases err with
      | some e =>
        simp only [processChunk, hck, hid]
        exact hdims
      | none =>
        cases hsel : chunk'.select mainTableColumns with
        | error e =>
          simp only [processChunk, hck, hid, hsel]
          exact hdims
        | ok main =>
          simp only [processChunk, hck, hid, hsel]
          obtain ⟨hso, hmc⟩ := hdims
          exact ⟨appendTable_storeOk hso (select_rows_ok hsel hchunk'),
            appendTable_microCols_main hmc⟩

theorem processChunks_inv : ∀ (chunks : List DataFrame) (st : Store),
    (∀ df ∈ chunks, chunkOk df) → pipelineInv st →
    pipelineInv (processChunks chunks st).1 := by
  intro chunks
  induction chunks with
  | nil => intro st _ hinv; exact hinv
  | cons c cs ih =>
    intro st hok hinv
    have hc := processChunk_inv (hok c (List.mem_cons_self _ _)) hinv
    cases hp : processChunk c st with
    | mk st' err =>
      rw [hp] at hc
      cases err with
      | none =>
        simp only [processChunks, hp]
        exact ih st' (fun df hdf => hok df (List.mem_cons_of_mem _ hdf)) hc
      | some e =>
        simp only [processChunks, hp]
        exact hc

theorem processFile_inv {u : Option (List String)} {f : CSVFile} {st : Store}
    (hinv : pipelineInv st) : pipelineInv (processFile u f st).1 := by
  cases hx : extract_dataframe_from_csv f 50000 u with
  | mk chunks readErr =>
    have hok : ∀ df ∈ chunks, chunkOk df := by
      intro df hdf
      apply extract_chunks_ok df
      rw [hx]
      exact hdf
    have hpc := processChunks_inv chunks st hok hinv
    cases hp : processChunks chunks st with
    | mk st' err =>
      rw [hp] at hpc
      cases err with
      | none =>
        simp only [processFile, hx, hp]
        exact hpc
      | some e =>
        simp only [processFile, hx, hp]
        exact hpc

theorem process_csv_files_inv : ∀ (files : List CSVFile) (u : Option (List String))
    (st : Store), pipelineInv st → pipelineInv (process_csv_files files u st).1 := by
  intro files
  induction files with
  | nil => intro u st hinv; exact hinv
  | cons f fs ih =>
    intro u st hinv
    have hf := processFile_inv (u := u) (f := f) hinv
    cases hp : processFile u f st with
    | mk st' err =>
      rw [hp] at hf
      cases err with
      | none =>
        simp only [process_csv_files, hp]
        exact ih u st' hf
      | some e =>
        simp only [process_csv_files, hp]
        exact hf

theorem pipelineInv_nil : pipelineInv [] := by
  constructor
  · intro p hp
    cases hp
  · intro t ht
    simp [Store.getTable] at ht

theorem getTable_mem {st : Store} {name : String} {t : Table}
    (h : st.getTable name = some t) : ∃ p ∈ st, p.2 = t := by
  unfold Store.getTable at h
  cases hf : st.find? (fun p => decide (p.1 = name)) with
  | none => rw [hf] at h; cases h
  | some p =>
    rw [hf] at h
    cases h
    exact ⟨p, List.mem_of_find?_eq_some hf, rfl⟩

/-- C5: a source row with a missing value in any selected column is
dropped from its batch before any projection or write (`dropna` in the
reader), so no destination table of a `process_csv_files` run ever holds
a missing value in any of its rows. -/
theorem C5_null_drop (files : List CSVFile) (u : Option (List String)) (name : String)
    (t : Table) (h : (process_csv_files files u []).1.getTable name = some t) :
    ∀ r ∈ t.rows, Cell.missing ∉ r := by
  have hinv := process_csv_files_inv files u [] pipelineInv_nil
  obtain ⟨p, hp, rfl⟩ := getTable_mem h
  exact hinv.1 p hp

/-- Witness for C5 at a concrete run over one well-formed file: the
stored `regions` and `states` rows hold no missing value. -/
theorem C5_witness :
    Cell.missing ∉ [Cell.intCell 1, Cell.strCell "Nome"] ∧
    Cell.missing ∉ [Cell.intCell 1, Cell.strCell "Nome", Cell.strCell "AC"] :=
  ⟨C5_null_drop [goodFile] (some selected_columns) "regions"
      ⟨["CO_REGIAO", "NO_REGIAO"], [[Cell.intCell 1, Cell.strCell "Nome"]]⟩ (by decide)
      [Cell.intCell 1, Cell.strCell "Nome"] (by decide),
    C5_null_drop [goodFile] (some selected_columns) "states"
      ⟨["CO_UF", "NO_UF", "SG_UF"],
        [[Cell.intCell 1, Cell.strCell "Nome", Cell.strCell "AC"]]⟩ (by decide)
      [Cell.intCell 1, Cell.strCell "Nome", Cell.strCell "AC"] (by decide)⟩

/-- C2 as stated is false: the discovered `QT_ING_TOTAL` column is read
into the batch, but the fact projection written to `microdados` is only
the six static fact columns, which do not include it. -/
theorem C2_counterexample :
    ((extract_dataframe_from_csv qtFile 50000 (some selected_columns)).1.map DataFrame.cols)
      = [selected_columns ++ ["QT_ING_TOTAL"]] ∧
    ((process_csv_files [qtFile] (some selected_columns) []).1.getTable "microdados").map
        Table.cols = some mainTableColumns ∧
    "QT_ING_TOTAL" ∉ mainTableColumns := by
  refine ⟨by decide, by decide, by decide⟩

/-- C2 amended: every header column named with the `QT_ING`/`QT_CONC`
count markers is auto-added to the read column set, so it is read from
the file; but the fact projection written to the `microdados` table is
exactly the six static fact columns — the discovered count columns are
not part of it. -/
theorem C2_discovered_read_not_written :
    (∀ (usecols allCols : List String) (col : String), col ∈ allCols →
      (strStartsWith col "QT_ING" = true ∨ strStartsWith col "QT_CONC" = true) →
      col ∈ combineUsecols usecols allCols) ∧
    (∀ (files : List CSVFile) (u : Option (List String)) (t : Table),
      (process_csv_files files u []).1.getTable "microdados" = some t →
      t.cols = mainTableColumns) := by
  constructor
  · intro usecols allCols col hmem hqt
    unfold combineUsecols
    apply dedupKeepFirst_mem_of_mem
    apply List.mem_append_right
    unfold qtColumns
    refine List.mem_filter.mpr ⟨hmem, ?_⟩
    cases hqt with
    | inl h => rw [h]; rfl
    | inr h => rw [h]; simp
  · intro files u t h
    exact (process_csv_files_inv files u [] pipelineInv_nil).2 t h

/-- Witness for C2's amended statement. -/
theorem C2_witness :
    "QT_ING_TOTAL" ∈ combineUsecols selected_columns (selected_columns ++ ["QT_ING_TOTAL"]) ∧
    (⟨mainTableColumns,
        [[Cell.intCell 1, Cell.intCell 1, Cell.intCell 1, Cell.intCell 1, Cell.intCell 1,
          Cell.intCell 1]]⟩ : Table).cols = mainTableColumns := by
  constructor
  · exact C2_discovered_read_not_written.1 selected_columns
      (selected_columns ++ ["QT_ING_TOTAL"]) "QT_ING_TOTAL" (by decide) (Or.inl (by decide))
  · exact C2_discovered_read_not_written.2 [goodFile] (some selected_columns)
      ⟨mainTableColumns,
        [[Cell.intCell 1, Cell.intCell 1, Cell.intCell 1, Cell.intCell 1, Cell.intCell 1,
          Cell.intCell 1]]⟩ (by decide)

/-! ## Claim C9: `NO_` columns are routed to mapping tables -/

theorem convertCodes_length (rows : List Row) :
    (convertCodes rows).length = rows.length := by
  unfold convertCodes
  cases hm : mapO (fun r =>
      match coerceIntCell ((r.get? 0).getD Cell.missing) with
      | some n => some (r.set 0 (Cell.intCell n))
      | none => none) rows with
  | none => rfl
  | some rs => exact mapO_some_length hm

theorem convertCodes_ne_nil {rows : List Row} (h : rows ≠ []) : convertCodes rows ≠ [] := by
  intro hc
  have := convertCodes_length rows
  rw [hc] at this
  exact h (List.length_eq_zero.mp this.symm)

theorem create_mapping_table_other {df : DataFrame} {noCol coCol : String} {st st' : Store}
    (h : create_mapping_table df noCol coCol st = .ok st') :
    ∀ name, name ≠ stripNO noCol → st'.getTable name = st.getTable name := by
  intro name hne
  unfold create_mapping_table at h
  cases hsel : df.select [coCol, noCol] with
  | error e => rw [hsel] at h; cases h
  | ok sub =>
    rw [hsel] at h
    cases hget : st.getTable (stripNO noCol) with
    | none =>
      simp only [hget] at h
      by_cases hemp : (convertCodes (dedupKeepFirst sub.rows)).isEmpty = true
      · rw [if_pos hemp] at h; cases h; rfl
      · rw [if_neg hemp] at h
        cases h
        exact getTable_appendTable_other st _ name _ _ hne
    | some t =>
      simp only [hget] at h
      by_cases hcc : coCol ∈ t.cols
      · rw [if_pos hcc] at h
        by_cases hfe :
            ((if (t.rows.map (fun row => (row.get? (t.cols.indexOf coCol)).getD Cell.missing)).isEmpty
                  = true
              then convertCodes (dedupKeepFirst sub.rows)
              else (convertCodes (dedupKeepFirst sub.rows)).filter
                (fun r => decide (((r.get? 0).getD Cell.missing) ∉
                  t.rows.map (fun row =>
                    (row.get? (t.cols.indexOf coCol)).getD Cell.missing))))).isEmpty = true
        · rw [if_pos hfe] at h; cases h; rfl
        · rw [if_neg hfe] at h
          cases h
          exact getTable_appendTable_other st _ name _ _ hne
      · rw [if_neg hcc] at h; cases h
  
theorem create_mapping_table_absent {df : DataFrame} {noCol coCol : String} {st st' : Store}
    (h : create_mapping_table df noCol coCol st = .ok st')
    (hget : st.getTable (stripNO noCol) = none) (hrows : df.rows ≠ []) :
    ∃ t, st'.getTable (stripNO noCol) = some t ∧ t.cols = [coCol, noCol] ∧ t.rows ≠ [] := by
  unfold create_mapping_table at h
  cases hsel : df.select [coCol, noCol] with
  | error e => rw [hsel] at h; cases h
  | ok sub =>
    rw [hsel] at h
    simp only [hget] at h
    have hsubrows : sub.rows ≠ [] := by
      obtain ⟨_, hrw, _⟩ := select_ok_spec hsel
      rw [hrw]
      intro hc
      exact hrows (List.map_eq_nil.mp hc)
    have hne : convertCodes (dedupKeepFirst sub.rows) ≠ [] :=
      convertCodes_ne_nil (dedupKeepFirst_ne_nil hsubrows)
    have hemp : ¬((convertCodes (dedupKeepFirst sub.rows)).isEmpty = true) := by
      rw [List.isEmpty_iff]
      exact hne
    rw [if_neg hemp] at h
    cases h
    refine ⟨⟨[coCol, noCol], convertCodes (dedupKeepFirst sub.rows)⟩, ?_, rfl, hne⟩
    exact getTable_appendTable_absent st _ _ _ hget

theorem tryConvertColInt_spec (df : DataFrame) (col : String) :
    (tryConvertColInt df col).cols = df.cols ∧
    (tryConvertColInt df col).rows.length = df.rows.length := by
  unfold tryConvertColInt
  cases hm : mapO (fun r =>
      match coerceIntCell ((r.get? (df.cols.indexOf col)).getD Cell.missing) with
      | some n => some (r.set (df.cols.indexOf col) (Cell.intCell n))
      | none => none) df.rows with
  | none => exact ⟨rfl, rfl⟩
  | some rs => exact ⟨rfl, mapO_some_length hm⟩

theorem strictConvertCol_spec {df : DataFrame} {col : String} {w : Int → Int}
    {df' : DataFrame} (h : strictConvertCol df col w = .ok df') :
    df'.cols = df.cols ∧ df'.rows.length = df.rows.length := by
  unfold strictConvertCol at h
  cases hm : mapO (fun r =>
      match coerceIntCell ((r.get? (df.cols.indexOf col)).getD Cell.missing) with
      | some n => some (r.set (df.cols.indexOf col) (Cell.intCell (w n)))
      | none => none) df.rows with
  | none => rw [hm] at h; cases h
  | some rs =>
    rw [hm] at h
    cases h
    exact ⟨rfl, mapO_some_length hm⟩

theorem addColStep_NO {df : DataFrame} {st : Store} {noCols : List String} {c : String}
    {acc₁ : DataFrame × Store × List String}
    (hNO : strStartsWith c "NO_" = true)
    (hstep : addColStep (df, st, noCols) c = .ok acc₁) :
    ∃ st₁, create_mapping_table df c (strReplace c "NO_" "CO_") st = .ok st₁ ∧
      acc₁ = (df, st₁, noCols ++ [c]) := by
  simp only [addColStep] at hstep
  rw [if_pos hNO] at hstep
  cases hcm : create_mapping_table df c (strReplace c "NO_" "CO_") st with
  | error e => rw [hcm] at hstep; cases hstep
  | ok st₁ =>
    rw [hcm] at hstep
    cases hstep
    exact ⟨st₁, rfl, rfl⟩

theorem addColStep_not_NO {df : DataFrame} {st : Store} {noCols : List String} {c : String}
    {acc₁ : DataFrame × Store × List String}
    (hNO : ¬(strStartsWith c "NO_" = true))
    (hstep : addColStep (df, st, noCols) c = .ok acc₁) :
    acc₁.1.cols = df.cols ∧ acc₁.1.rows.length = df.rows.length ∧
    acc₁.2.1 = st ∧ acc₁.2.2 = noCols := by
  simp only [addColStep] at hstep
  rw [if_neg hNO] at hstep
  by_cases hCO : strStartsWith c "CO_" = true
  · rw [if_pos hCO] at hstep
    cases hstep
    obtain ⟨h1, h2⟩ := tryConvertColInt_spec df c
    exact ⟨h1, h2, rfl, rfl⟩
  · rw [if_neg hCO] at hstep
    by_cases hSG : strStartsWith c "SG_" = true
    · rw [if_pos hSG] at hstep
      cases hstep
      exact ⟨rfl, rfl, rfl, rfl⟩
    · rw [if_neg hSG] at hstep
      by_cases hIN : (strStartsWith c "IN_" || strStartsWith c "TP_") = true
      · rw [if_pos hIN] at hstep
        cases hconv : strictConvertCol df c toInt8 with
        | error e => rw [hconv] at hstep; cases hstep
        | ok df₁ =>
          rw [hconv] at hstep
          cases hstep
          obtain ⟨h1, h2⟩ := strictConvertCol_spec hconv
          exact ⟨h1, h2, rfl, rfl⟩
      · rw [if_neg hIN] at hstep
        by_cases hQT : strStartsWith c "QT_" = true
        · rw [if_pos hQT] at hstep
          cases hconv : strictConvertCol df c toInt32 with
          | error e => rw [hconv] at hstep; cases hstep
          | ok df₁ =>
            rw [hconv] at hstep
            cases hstep
            obtain ⟨h1, h2⟩ := strictConvertCol_spec hconv
            exact ⟨h1, h2, rfl, rfl⟩
        · rw [if_neg hQT] at hstep
          cases hstep
          exact ⟨rfl, rfl, rfl, rfl⟩

theorem addCols_inv (allCols : List String) (nRows : Nat)
    (hnodup : allCols.Nodup)
    (hdist : ∀ c₁ ∈ allCols, ∀ c₂ ∈ allCols, strStartsWith c₁ "NO_" = true →
      strStartsWith c₂ "NO_" = true → stripNO c₁ = stripNO c₂ → c₁ = c₂)
    (hpos : 0 < nRows) :
    ∀ (cs pre : List String) (dfc : DataFrame) (st : Store) (noCols : List String)
      (dfc' : DataFrame) (st' : Store) (noCols' : List String),
      allCols = pre ++ cs →
      dfc.cols = allCols →
      dfc.rows.length = nRows →
      noCols = pre.filter (fun c => strStartsWith c "NO_") →
      (∀ name, (st.getTable name).isSome = true →
        ∃ c ∈ pre, strStartsWith c "NO_" = true ∧ name = stripNO c) →
      (∀ c ∈ pre, strStartsWith c "NO_" = true →
        ∃ t, st.getTable (stripNO c) = some t ∧
          t.cols = [strReplace c "NO_" "CO_", c] ∧ t.rows ≠ []) →
      addCols cs (dfc, st, noCols) = ((dfc', st', noCols'), none) →
      dfc'.cols = allCols ∧
      noCols' = allCols.filter (fun c => strStartsWith c "NO_") ∧
      (∀ name, (st'.getTable name).isSome = true →
        ∃ c ∈ allCols, strStartsWith c "NO_" = true ∧ name = stripNO c) ∧
      (∀ c ∈ allCols, strStartsWith c "NO_" = true →
        ∃ t, st'.getTable (stripNO c) = some t ∧
          t.cols = [strReplace c "NO_" "CO_", c] ∧ t.rows ≠ []) := by
  intro cs
  induction cs with
  | nil =>
    intro pre dfc st noCols dfc' st' noCols' hsplit hcols hlen hnoCols hnames htabs h
    simp only [addCols, Prod.mk.injEq] at h
    obtain ⟨⟨hd, hs, hn⟩, -⟩ := h
    subst hd
    subst hs
    subst hn
    rw [List.append_nil] at hsplit
    subst hsplit
    exact ⟨hcols, hnoCols, hnames, htabs⟩
  | cons c cs ih =>
    intro pre dfc st noCols dfc' st' noCols' hsplit hcols hlen hnoCols hnames htabs h
    simp only [addCols] at h
    cases hstep : addColStep (dfc, st, noCols) c with
    | error e =>
      rw [hstep] at h
      simp only [Prod.mk.injEq] at h
      exact absurd h.2 (Option.some_ne_none e)
    | ok acc₁ =>
      rw [hstep] at h
      have hc_mem_all : c ∈ allCols := by
        rw [hsplit]
        exact List.mem_append_right _ (List.mem_cons_self _ _)
      have hc_not_pre : c ∉ pre := by
        intro hcp
        rw [hsplit] at hnodup
        obtain ⟨-, -, hdisj⟩ := List.nodup_append.mp hnodup
        exact hdisj hcp (List.mem_cons_self _ _)
      have hsplit' : allCols = (pre ++ [c]) ++ cs := by
        rw [hsplit, List.append_assoc]
        rfl
      by_cases hNO : strStartsWith c "NO_" = true
      · obtain ⟨st₁, hcm, rfl⟩ := addColStep_NO hNO hstep
        have hget_none : st.getTable (stripNO c) = none := by
          cases hg : st.getTable (stripNO c) with
          | none => rfl
          | some t =>
            exfalso
            have hsome : (st.getTable (stripNO c)).isSome = true := by rw [hg]; rfl
            obtain ⟨c₀, hc₀pre, hc₀NO, hname_eq⟩ := hnames _ hsome
            have hc₀all : c₀ ∈ allCols := by
              rw [hsplit]
              exact List.mem_append_left _ hc₀pre
            have hcc : c₀ = c := hdist c₀ hc₀all c hc_mem_all hc₀NO hNO hname_eq.symm
            exact hc_not_pre (hcc ▸ hc₀pre)
        have hrows_ne : dfc.rows ≠ [] := by
          intro hc0
          rw [hc0] at hlen
          simp only [List.length_nil] at hlen
          omega
        obtain ⟨tNew, hget_new, htcols, htrows⟩ :=
          create_mapping_table_absent hcm hget_none hrows_ne
        refine ih (pre ++ [c]) dfc st₁ (noCols ++ [c]) dfc' st' noCols' hsplit' hcols hlen
          ?_ ?_ ?_ h
        · rw [hnoCols, List.filter_append]
          simp [hNO]
        · intro name hsome
          by_cases hn : name = stripNO c
          · exact ⟨c, List.mem_append_right _ (List.mem_cons_self _ _), hNO, hn⟩
          · rw [create_mapping_table_other hcm name hn] at hsome
            obtain ⟨c₀, hc₀pre, hc₀NO, hname_eq⟩ := hnames _ hsome
            exact ⟨c₀, List.mem_append_left _ hc₀pre, hc₀NO, hname_eq⟩
        · intro c₀ hc₀mem hc₀NO
          rcases List.mem_append.mp hc₀mem with hc₀pre | hc₀c
          · obtain ⟨t, hget_t, htc, htr⟩ := htabs c₀ hc₀pre hc₀NO
            have hne : stripNO c₀ ≠ stripNO c := by
              intro heq
              have hc₀all : c₀ ∈ allCols := by
                rw [hsplit]
                exact List.mem_append_left _ hc₀pre
              have hcc : c₀ = c := hdist c₀ hc₀all c hc_mem_all hc₀NO hNO heq
              exact hc_not_pre (hcc ▸ hc₀pre)
            rw [create_mapping_table_other hcm _ hne]
            exact ⟨t, hget_t, htc, htr⟩
          · have hcc : c₀ = c := List.mem_singleton.mp hc₀c
            subst hcc
            exact ⟨tNew, hget_new, htcols, htrows⟩
      · obtain ⟨df₁, st₁, no₁⟩ := acc₁
        obtain ⟨h1, h2, h3, h4⟩ := addColStep_not_NO hNO hstep
        have h1' : df₁.cols = dfc.cols := h1
        have h2' : df₁.rows.length = dfc.rows.length := h2
        have h3' : st₁ = st := h3
        have h4' : no₁ = noCols := h4
        refine ih (pre ++ [c]) df₁ st₁ no₁ dfc' st' noCols' hsplit' (h1'.trans hcols)
          (h2'.trans hlen) ?_ ?_ ?_ h
        · rw [h4', hnoCols, List.filter_append]
          simp [hNO]
        · intro name hsome
          rw [h3'] at hsome
          obtain ⟨c₀, hc₀pre, hc₀NO, hname_eq⟩ := hnames _ hsome
          exact ⟨c₀, List.mem_append_left _ hc₀pre, hc₀NO, hname_eq⟩
        · intro c₀ hc₀mem hc₀NO
          rcases List.mem_append.mp hc₀mem with hc₀pre | hc₀c
          · rw [h3']
            exact htabs c₀ hc₀pre hc₀NO
          · exact absurd ((List.mem_singleton.mp hc₀c) ▸ hc₀NO) hNO

/-- C9: under `add_dataframe_to_db`, no `NO_` name column reaches the
destination table — the written columns are exactly the non-`NO_`
columns — and each `NO_` column's `(code, name)` pairs are routed to a
mapping table named by stripping the `NO_` marker and lowercasing the
remainder (against a fresh store, with distinct mapping names that do
not collide with the destination, and a successful call). -/
theorem C9_no_name_columns (df : DataFrame) (tableName : String)
    (hnodup : df.cols.Nodup)
    (hrows : df.rows ≠ [])
    (hdist : ∀ c₁ ∈ df.cols, ∀ c₂ ∈ df.cols, strStartsWith c₁ "NO_" = true →
      strStartsWith c₂ "NO_" = true → stripNO c₁ = stripNO c₂ → c₁ = c₂)
    (hname : ∀ c ∈ df.cols, strStartsWith c "NO_" = true → stripNO c ≠ tableName)
    (hok : (add_dataframe_to_db df tableName []).2 = none) :
    (∃ t, ((add_dataframe_to_db df tableName []).1).getTable tableName = some t ∧
      t.cols = df.cols.filter (fun c => !(strStartsWith c "NO_")) ∧
      ∀ c ∈ t.cols, ¬ strStartsWith c "NO_" = true) ∧
    (∀ c ∈ df.cols, strStartsWith c "NO_" = true →
      ∃ t, ((add_dataframe_to_db df tableName []).1).getTable (stripNO c) = some t ∧
        t.cols = [strReplace c "NO_" "CO_", c]) := by
  cases hac : addCols df.cols (df, [], []) with
  | mk acc err =>
    obtain ⟨df', st', noCols'⟩ := acc
    cases err with
    | some e =>
      exfalso
      unfold add_dataframe_to_db at hok
      rw [hac] at hok
      cases hok
    | none =>
      have hpos : 0 < df.rows.length := by
        cases hr : df.rows with
        | nil => exact absurd hr hrows
        | cons a l => simp [hr]
      obtain ⟨hcols', hnoCols', hnames', htabs'⟩ :=
        addCols_inv df.cols df.rows.length hnodup hdist hpos
          df.cols [] df [] [] df' st' noCols' rfl rfl rfl rfl
          (by intro name hsome; simp [Store.getTable] at hsome)
          (by intro c hc; cases hc) hac
      have hadd : add_dataframe_to_db df tableName [] =
          (st'.appendTable tableName (dropColumns df' noCols').cols
            (dropColumns df' noCols').rows, none) := by
        unfold add_dataframe_to_db
        rw [hac]
      have hkeep : (dropColumns df' noCols').cols =
          df.cols.filter (fun c => !(strStartsWith c "NO_")) := by
        unfold dropColumns
        rw [hcols', hnoCols']
        apply List.filter_congr
        intro x hx
        by_cases hxNO : strStartsWith x "NO_" = true
        · have hxmem : x ∈ df.cols.filter (fun c => strStartsWith c "NO_") :=
            List.mem_filter.mpr ⟨hx, hxNO⟩
          rw [decide_eq_false (by simpa using hxmem)]
          rw [hxNO]
          rfl
        · have hxnot : x ∉ df.cols.filter (fun c => strStartsWith c "NO_") := by
            intro hmem
            exact hxNO (List.mem_filter.mp hmem).2
          rw [decide_eq_true hxnot]
          cases hb : strStartsWith x "NO_" with
          | true => exact absurd hb hxNO
          | false => rfl
      have htn_none : st'.getTable tableName = none := by
        cases hg : st'.getTable tableName with
        | none => rfl
        | some t =>
          exfalso
          have hsome : (st'.getTable tableName).isSome = true := by rw [hg]; rfl
          obtain ⟨c, hcdf, hcNO, heq⟩ := hnames' _ hsome
          exact hname c hcdf hcNO heq.symm
      rw [hadd]
      constructor
      · refine ⟨⟨(dropColumns df' noCols').cols, (dropColumns df' noCols').rows⟩, ?_, ?_, ?_⟩
        · exact getTable_appendTable_absent st' tableName _ _ htn_none
        · exact hkeep
        · intro c hc
          rw [hkeep] at hc
          obtain ⟨-, hcb⟩ := List.mem_filter.mp hc
          intro hcNO
          rw [hcNO] at hcb
          cases hcb
      · intro c hcdf hcNO
        obtain ⟨t, hget_t, htc, -⟩ := htabs' c hcdf hcNO
        refine ⟨t, ?_, htc⟩
        have hother := getTable_appendTable_other st' tableName (stripNO c)
          (dropColumns df' noCols').cols (dropColumns df' noCols').rows
          (hname c hcdf hcNO)
        rw [hother]
        exact hget_t

/-- Witness for C9 at a concrete two-column DataFrame. -/
theorem C9_witness :
    (∃ t, ((add_dataframe_to_db ⟨["CO_REGIAO", "NO_REGIAO"],
        [[Cell.intCell 1, Cell.strCell "Norte"]]⟩ "MICRODADOS" []).1).getTable "MICRODADOS"
        = some t ∧
      t.cols = (["CO_REGIAO", "NO_REGIAO"] : List String).filter
        (fun c => !(strStartsWith c "NO_")) ∧
      ∀ c ∈ t.cols, ¬ strStartsWith c "NO_" = true) ∧
    (∀ c ∈ (["CO_REGIAO", "NO_REGIAO"] : List String), strStartsWith c "NO_" = true →
      ∃ t, ((add_dataframe_to_db ⟨["CO_REGIAO", "NO_REGIAO"],
          [[Cell.intCell 1, Cell.strCell "Norte"]]⟩ "MICRODADOS" []).1).getTable (stripNO c)
          = some t ∧ t.cols = [strReplace c "NO_" "CO_", c]) :=
  C9_no_name_columns ⟨["CO_REGIAO", "NO_REGIAO"], [[Cell.intCell 1, Cell.strCell "Norte"]]⟩
    "MICRODADOS" (by decide) (by decide) (by decide) (by decide) (by decide)
